import Mathlib

/-!
# Verification of the T20 score predictor match-state and scoring engine

This file gives a shallow embedding, in Lean 4, of the core functions of
`src/t20-score-predictor/server.js`: the match normalizer, the toss resolver,
the innings lock logic, the result calculator, the scoreboard aggregator, and
the predict/reopen route handlers.  JavaScript numbers that are always
integral in the engine (timestamps, scores, diffs) are modelled as `Int`;
quantities that may be fractional (submitted raw scores, settings, points,
average diffs) are modelled as `Rat`.  JavaScript objects used as
player-to-score dictionaries are modelled as association lists, `null` and
`undefined` as `Option`, and the current wall-clock time as an explicit
`now : Int` parameter.
-/

namespace T20

/-- A mapping from player id to an integral predicted score
(a JS object used as a dictionary). -/
abbrev PredMap := List (String × Int)

/-- A room participant (`data.players[i]`). -/
structure Player where
  id : String
  name : String
deriving DecidableEq

/-- One innings record (`match.innings1` / `match.innings2`). -/
structure Innings where
  status : String
  lockTime : Option Int
  score : Option Int
deriving DecidableEq

/-- A toss record (`match.toss`); absent fields are the empty string,
mirroring the falsiness checks in the source. -/
structure Toss where
  winner : String
  decision : String
deriving DecidableEq

/-- The result of one innings as computed by `computeInningsResult`. -/
structure InningsResult where
  winners : List String
  closestDiff : Option Int
deriving DecidableEq

/-- The stored `match.result` object, holding one optional result per innings. -/
structure ResultPair where
  innings1 : Option InningsResult
  innings2 : Option InningsResult
deriving DecidableEq

/-- The shapes `match.predictions` can take in stored data:
not an object at all, a legacy flat player-to-score map (an object with
neither an `innings1` nor an `innings2` key), or a per-innings pair of maps
(each possibly null). -/
inductive RawPreds where
  | bad : RawPreds
  | flat : PredMap → RawPreds
  | split : Option PredMap → Option PredMap → RawPreds
deriving DecidableEq

/-- A stored match record of unknown provenance: the canonical fields plus the
legacy flat fields (`status`, `lockTime`, `actualScore`, ...) that
`normalizeMatch` migrates from. -/
structure RawMatch where
  teamA : String
  teamB : String
  status : Option String
  lockTime : Option Int
  actualScore : Option Int
  innings2LockTime : Option Int
  innings2Score : Option Int
  innings1 : Option Innings
  innings2 : Option Innings
  predictions : RawPreds
  result : Option ResultPair
  toss : Option Toss
deriving DecidableEq

/-- The room settings fields the engine reads.  `bonusExact` is the
exact-guess bonus in points (an integer, as configured by the room). -/
structure Settings where
  bonusExact : Int
  minScore : Rat
  maxScore : Rat
  lockMinutesBeforeStart : Rat
deriving DecidableEq

/-- The room state as consumed by `buildScoreboard` (`matchList` models
`data.matches`; `matches` is reserved syntax in Lean). -/
structure RoomData where
  settings : Settings
  players : List Player
  matchList : List RawMatch
deriving DecidableEq

/-- Selects one of the two innings of a match (`"innings1"`/`"innings2"`). -/
inductive InningsKey where
  | innings1 : InningsKey
  | innings2 : InningsKey
deriving DecidableEq

/-- `match[inningsKey]`. -/
def inningsOf (m : RawMatch) : InningsKey → Option Innings
  | .innings1 => m.innings1
  | .innings2 => m.innings2

/-- `match.predictions?.[inningsKey] || {}`: on a non-object or a legacy flat
map the per-innings key is absent, so the default empty map is used. -/
def rawPredsGet (p : RawPreds) : InningsKey → PredMap
  | .innings1 => match p with
    | .split a _ => a.getD []
    | _ => []
  | .innings2 => match p with
    | .split _ b => b.getD []
    | _ => []

/-- `match.result?.[inningsKey]`. -/
def resultGet (r : Option ResultPair) (k : InningsKey) : Option InningsResult :=
  match r with
  | none => none
  | some rp => match k with
    | .innings1 => rp.innings1
    | .innings2 => rp.innings2

/-- JS `s || d` for a possibly absent string (both `null` and `""` are falsy). -/
def jsStrOr (s : Option String) (d : String) : String :=
  match s with
  | none => d
  | some v => if v = "" then d else v

/-- JS object property read `m[key]`: the value stored under `key`, absent
when the key is missing. -/
def predLookup (m : PredMap) (key : String) : Option Int :=
  match m with
  | [] => none
  | (a, b) :: t => if a = key then some b else predLookup t key

/-- JS object property assignment `m[k] = v`: overwrites the value in place if
the key exists, else appends the key. -/
def mapSet (m : PredMap) (k : String) (v : Int) : PredMap :=
  if m.any (fun p => p.1 = k) then
    m.map (fun p => if p.1 = k then (k, v) else p)
  else m ++ [(k, v)]

/-- `isInningsLocked(innings)` (server.js lines 646-655), with the current
time passed explicitly. -/
def isInningsLocked (now : Int) (innings : Option Innings) : Bool :=
  match innings with
  | none => true
  | some i =>
    if i.status = "locked" ∨ i.status = "scored" then true
    else if i.status = "open" then
      match i.lockTime with
      | some lock => decide (lock ≤ now)
      | none => false
    else false

/-- `normalizeInningsStatus(innings)` (lines 657-662): advance an `open`
innings whose lock time has passed to `locked`.  The source mutates in
place; the embedding returns the updated innings. -/
def normalizeInningsStatus (now : Int) (innings : Option Innings) : Option Innings :=
  match innings with
  | none => none
  | some i =>
    if i.status = "open" ∧ isInningsLocked now (some i) then
      some { i with status := "locked" }
    else some i

/-- The `innings1` object `normalizeMatch` synthesizes from legacy flat
fields when `match.innings1` is absent. -/
def synthInnings1 (m : RawMatch) : Innings :=
  { status := jsStrOr m.status "open", lockTime := m.lockTime, score := m.actualScore }

/-- The `innings2` object `normalizeMatch` synthesizes when `match.innings2`
is absent. -/
def synthInnings2 (m : RawMatch) : Innings :=
  { status := "pending", lockTime := m.innings2LockTime, score := m.innings2Score }

/-- The effective `innings1` after the synthesis step of `normalizeMatch`. -/
def effInnings1 (m : RawMatch) : Innings := m.innings1.getD (synthInnings1 m)

/-- The effective `innings2` after the synthesis step of `normalizeMatch`. -/
def effInnings2 (m : RawMatch) : Innings := m.innings2.getD (synthInnings2 m)

/-- The predictions-shape repair steps of `normalizeMatch` (lines 694-702):
a non-object becomes `{}`; an object with neither per-innings key is wrapped
as legacy innings1 data; each per-innings key is defaulted to `{}`. -/
def normalizePreds (p : RawPreds) : RawPreds :=
  match p with
  | RawPreds.bad => RawPreds.split (some []) (some [])
  | RawPreds.flat legacy => RawPreds.split (some legacy) (some [])
  | RawPreds.split none none => RawPreds.split (some []) (some [])
  | RawPreds.split a b => RawPreds.split (some (a.getD [])) (some (b.getD []))

/-- The pending-to-open promotion step of `normalizeMatch` (lines 708-713):
when innings1 is scored and innings2 still pending, innings2 becomes open
(the inner conditional assigns `null` to an already-falsy lock time, a
no-op kept for faithfulness). -/
def promoteInnings2 (settings : Settings) (i1 i2 : Innings) : Innings :=
  if i1.status = "scored" ∧ i2.status = "pending" then
    let i2a := { i2 with status := "open" }
    if i2a.lockTime = none ∧ i1.lockTime ≠ none ∧ settings.lockMinutesBeforeStart ≠ 0 then
      { i2a with lockTime := none }
    else i2a
  else i2

/-- `normalizeMatch(match, settings)` (lines 678-717), with the current time
passed explicitly.  The source mutates the match in place; the embedding
returns the updated record. -/
def normalizeMatch (now : Int) (settings : Settings) (m : RawMatch) : RawMatch :=
  let i1 := effInnings1 m
  let i2 := effInnings2 m
  let preds := normalizePreds m.predictions
  let i2p := promoteInnings2 settings i1 i2
  { m with
    innings1 := normalizeInningsStatus now (some i1)
    innings2 := normalizeInningsStatus now (some i2p)
    predictions := preds
    toss := m.toss }

/-- The batting assignment returned by `getBattingTeams`. -/
structure BattingTeams where
  innings1 : String
  innings2 : String
deriving DecidableEq

/-- `getBattingTeams(match)` (lines 664-676). -/
def getBattingTeams (m : RawMatch) : Option BattingTeams :=
  match m.toss with
  | none => none
  | some t =>
    if t.winner = "" ∨ t.decision = "" then none
    else
      let other := if t.winner = m.teamA then m.teamB else m.teamA
      if t.decision = "bat" then some { innings1 := t.winner, innings2 := other }
      else if t.decision = "field" then some { innings1 := other, innings2 := t.winner }
      else none

/-- `Math.min(...xs)` over a nonempty list of diffs (folded, as the spread
call evaluates left to right); the default is never reached because the
caller guards on nonemptiness. -/
def listMin (l : List Int) : Int := l.foldl min (l.headD 0)

/-- The `entries` array of `computeInningsResult` (lines 721-727): one pair
`(playerId, |prediction - actualScore|)` per listed player with a recorded
prediction. -/
def diffEntries (s : Int) (predictions : PredMap) (players : List Player) :
    List (String × Int) :=
  players.filterMap (fun p =>
    match predLookup predictions p.id with
    | none => none
    | some v => some (p.id, |v - s|))

/-- `computeInningsResult(actualScore, predictions, players)`
(lines 719-734). -/
def computeInningsResult (actualScore : Option Int) (predictions : PredMap)
    (players : List Player) : Option InningsResult :=
  match actualScore with
  | none => none
  | some s =>
    let entries := diffEntries s predictions players
    if entries.isEmpty then some { winners := [], closestDiff := none }
    else
      let minDiff := listMin (entries.map Prod.snd)
      some { winners := (entries.filter (fun e => e.2 = minDiff)).map Prod.fst
             closestDiff := some minDiff }

/-- One accumulator row of the scoreboard `stats` map, before `avgDiff` is
attached (the object literal at lines 739-748). -/
structure StatRow where
  playerId : String
  name : String
  wins : Nat
  exactHits : Nat
  points : Int
  totalDiff : Int
  predictions : Nat
  scoredMatches : Nat
deriving DecidableEq

/-- A finished scoreboard row (`StatRow` together with `avgDiff`). -/
structure Row where
  playerId : String
  name : String
  wins : Nat
  exactHits : Nat
  points : Int
  totalDiff : Int
  predictions : Nat
  scoredMatches : Nat
  avgDiff : Option Rat
deriving DecidableEq

/-- The zeroed accumulator row created for each player. -/
def newStatRow (p : Player) : StatRow :=
  { playerId := p.id, name := p.name, wins := 0, exactHits := 0, points := 0,
    totalDiff := 0, predictions := 0, scoredMatches := 0 }

/-- `stats.set(id, row)`: a JS `Map` overwrites in place when the key exists
(keeping its insertion position) and appends otherwise. -/
def jsMapSet (l : List StatRow) (id : String) (r : StatRow) : List StatRow :=
  if l.any (fun x => x.playerId = id) then
    l.map (fun x => if x.playerId = id then r else x)
  else l ++ [r]

/-- Mutating the row `stats.get(id)` in place. -/
def jsMapUpdate (l : List StatRow) (id : String) (f : StatRow → StatRow) : List StatRow :=
  l.map (fun x => if x.playerId = id then f x else x)

/-- `stats.get(id)` (the map holds at most one row per id). -/
def statsGet (l : List StatRow) (id : String) : Option StatRow :=
  l.find? (fun x => x.playerId = id)

/-- The initial `stats` map of `buildScoreboard` (lines 737-749). -/
def statsInit (players : List Player) : List StatRow :=
  players.foldl (fun acc p => jsMapSet acc p.id (newStatRow p)) []

/-- The `result` obtained by `buildScoreboard` for a scored innings with
score `s` (line 756-757): the stored result if present, else a fresh
`computeInningsResult`. -/
def inningsResultOf (players : List Player) (m : RawMatch) (k : InningsKey)
    (s : Int) : Option InningsResult :=
  match resultGet m.result k with
  | some r => some r
  | none => computeInningsResult (some s) (rawPredsGet m.predictions k) players

/-- The `winnerSet` of `buildScoreboard` (line 758): the winners of the
obtained result, or empty when there is no result. -/
def inningsWinners (players : List Player) (m : RawMatch) (k : InningsKey)
    (s : Int) : List String :=
  match inningsResultOf players m k s with
  | some r => r.winners
  | none => []

/-- The row mutation of the first per-player loop of `buildScoreboard`
(lines 766-770): accumulate the diff, the prediction count, the
scored-innings count, and exact hits. -/
def statUpdate (e : String × Int) (row : StatRow) : StatRow :=
  { row with
    totalDiff := row.totalDiff + e.2
    predictions := row.predictions + 1
    scoredMatches := row.scoredMatches + 1
    exactHits := if e.2 = (0 : Int) then row.exactHits + 1 else row.exactHits }

/-- The row mutation of the second loop of `buildScoreboard` (lines
773-782): a player in the winner set gains a win and a point, plus the
exact bonus when their diff is zero and the bonus is positive. -/
def awardUpdate (bonusExact : Int) (winnerSet : List String)
    (e : String × Int) (row : StatRow) : StatRow :=
  if winnerSet.contains e.1 then
    let row1 := { row with wins := row.wins + 1, points := row.points + 1 }
    if e.2 = 0 ∧ bonusExact > 0 then
      { row1 with points := row1.points + bonusExact }
    else row1
  else row

/-- The body of the per-innings loop of `buildScoreboard` (lines 752-783):
skip unless the innings is scored with a score; obtain (or recompute) the
innings result; accumulate diffs, prediction counts and exact hits for every
predicting player (the `diffs` array is the same computation as
`computeInningsResult`'s entries, `diffEntries`); then award wins, points
and the exact-hit bonus to the predicting players in the winner set. -/
def processInnings (players : List Player) (bonusExact : Int)
    (stats : List StatRow) (m : RawMatch) (k : InningsKey) : List StatRow :=
  match inningsOf m k with
  | none => stats
  | some inn =>
    if inn.status ≠ "scored" then stats
    else match inn.score with
      | none => stats
      | some s =>
        let preds := rawPredsGet m.predictions k
        let winnerSet := inningsWinners players m k s
        let diffs := diffEntries s preds players
        let stats1 := diffs.foldl (fun st e =>
          jsMapUpdate st e.1 (statUpdate e)) stats
        diffs.foldl (fun st e =>
          jsMapUpdate st e.1 (awardUpdate bonusExact winnerSet e)) stats1

/-- `Number((x).toFixed(2))`: `x` rounded to two decimal places (round half
up; the quantities rounded here are nonnegative).  The rounding of `x * 100`
is computed on the exact fraction: `⌊100 x + 1/2⌋ = ⌊(200 num + den) / (2 den)⌋`. -/
def round2 (q : Rat) : Rat :=
  mkRat (Int.fdiv (200 * q.num + (q.den : Int)) (2 * (q.den : Int))) 100

/-- The map step attaching `avgDiff` to a row (lines 786-789); the division
`totalDiff / predictions` is the exact fraction `mkRat`. -/
def finalizeRow (s : StatRow) : Row :=
  { playerId := s.playerId, name := s.name, wins := s.wins, exactHits := s.exactHits,
    points := s.points, totalDiff := s.totalDiff, predictions := s.predictions,
    scoredMatches := s.scoredMatches,
    avgDiff := if s.predictions = 0 then none
               else some (round2 (mkRat s.totalDiff s.predictions)) }

/-- JS `x || y` on comparator values: fall through exactly on `0`. -/
def jsOrQ (x y : Rat) : Rat := if x = 0 then y else x

/-- `a.name.localeCompare(b.name)` modelled as the three-valued comparison of
the lexicographic order on the strings' character lists. -/
def strCmp (a b : String) : Rat :=
  if a.data < b.data then -1 else if b.data < a.data then 1 else 0

/-- The value of `a.avgDiff` inside the comparator's subtraction: JS coerces
`null` to `0`. -/
def avgVal (r : Row) : Rat := r.avgDiff.getD 0

/-- The sort comparator of `buildScoreboard` (line 791):
`b.points - a.points || a.avgDiff - b.avgDiff || a.name.localeCompare(b.name)`. -/
def rowCmp (a b : Row) : Rat :=
  jsOrQ ((b.points - a.points : Int) : Rat)
    (jsOrQ (avgVal a - avgVal b) (strCmp a.name b.name))

/-- `a` sorts no later than `b` under `rowCmp`. -/
def rowLE (a b : Row) : Prop := rowCmp a b ≤ 0

/-- `rowLE` decided through its lexicographic reading (points descending,
then `avgVal` ascending, then name ascending), so that concrete scoreboards
evaluate. -/
instance : DecidableRel rowLE := fun a b =>
  decidable_of_iff
    (b.points < a.points ∨ (b.points = a.points ∧
      (avgVal a < avgVal b ∨ (avgVal a = avgVal b ∧ a.name.data ≤ b.name.data)))) (by
    unfold rowLE rowCmp jsOrQ strCmp
    constructor
    · rintro (h | ⟨hp, h⟩)
      · have hx : ((b.points - a.points : Int) : Rat) < 0 := by
          exact_mod_cast sub_neg.mpr h
        rw [if_neg (ne_of_lt hx)]
        exact le_of_lt hx
      · have hx0 : ((b.points - a.points : Int) : Rat) = 0 := by
          rw [hp, sub_self, Int.cast_zero]
        rw [if_pos hx0]
        rcases h with h | ⟨hv, hn⟩
        · have hy : avgVal a - avgVal b < 0 := sub_neg.mpr h
          rw [if_neg (ne_of_lt hy)]
          exact le_of_lt hy
        · rw [hv, sub_self, if_pos rfl]
          rcases lt_or_eq_of_le hn with hlt | heq
          · rw [if_pos hlt]
            norm_num
          · rw [if_neg (by rw [heq]; exact lt_irrefl _),
              if_neg (by rw [heq]; exact lt_irrefl _)]
    · intro h
      by_cases hp : b.points = a.points
      · have hx0 : ((b.points - a.points : Int) : Rat) = 0 := by
          rw [hp, sub_self, Int.cast_zero]
        rw [if_pos hx0] at h
        refine Or.inr ⟨hp, ?_⟩
        by_cases hv : avgVal a = avgVal b
        · rw [hv, sub_self, if_pos rfl] at h
          refine Or.inr ⟨hv, ?_⟩
          by_cases hlt : a.name.data < b.name.data
          · exact le_of_lt hlt
          · rw [if_neg hlt] at h
            by_cases hgt : b.name.data < a.name.data
            · rw [if_pos hgt] at h
              norm_num at h
            · exact le_of_not_lt hgt
        · rw [if_neg (sub_ne_zero_of_ne hv)] at h
          exact Or.inl (sub_neg.mp (lt_of_le_of_ne h (sub_ne_zero_of_ne hv)))
      · have hne : ((b.points - a.points : Int) : Rat) ≠ 0 := by
          exact_mod_cast sub_ne_zero_of_ne hp
        rw [if_neg hne] at h
        have hle : (b.points : Int) - a.points ≤ 0 := by exact_mod_cast h
        exact Or.inl (lt_of_le_of_ne (sub_nonpos.mp hle) hp))

/-- `buildScoreboard(data)` (lines 736-793).  The stable JS `Array.sort` with
a consistent comparator is modelled by stable insertion sort with respect to
`rowLE`. -/
def buildScoreboard (d : RoomData) : List Row :=
  let stats := statsInit d.players
  let stats1 := d.matchList.foldl (fun st m =>
    processInnings d.players d.settings.bonusExact
      (processInnings d.players d.settings.bonusExact st m InningsKey.innings1)
      m InningsKey.innings2) stats
  List.insertionSort rowLE (stats1.map finalizeRow)

/-- The error responses of the predict route, in source order. -/
inductive PredictErr where
  | tossNotSet : PredictErr
  | inningsNotOpen : PredictErr
  | locked : PredictErr
  | unknownPlayer : PredictErr
  | scoreOutOfRange : PredictErr
deriving DecidableEq

/-- The outcome of the predict route: the error reported, if any, together
with the match record as the handler leaves it. -/
structure PredictOutcome where
  error : Option PredictErr
  matchState : RawMatch
deriving DecidableEq

/-- `Math.round(q)`: round half toward positive infinity, computed on the
exact fraction: `⌊q + 1/2⌋ = ⌊(2 num + den) / (2 den)⌋`. -/
def jsRound (q : Rat) : Int := Int.fdiv (2 * q.num + (q.den : Int)) (2 * (q.den : Int))

/-- Writing `match.predictions[inningsKey][playerId] = v`.  The handler only
reaches this after `normalizeMatch`, so the predictions are in split shape;
other shapes are left unchanged. -/
def setPrediction (p : RawPreds) (k : InningsKey) (pid : String) (v : Int) : RawPreds :=
  match p, k with
  | RawPreds.split a b, .innings1 => RawPreds.split (some (mapSet (a.getD []) pid v)) b
  | RawPreds.split a b, .innings2 => RawPreds.split a (some (mapSet (b.getD []) pid v))
  | q, _ => q

/-- `const inningsKey = innings === 2 ? "innings2" : "innings1"`. -/
def predictKey (innings : Int) : InningsKey :=
  if innings = 2 then InningsKey.innings2 else InningsKey.innings1

/-- The predict route handler `POST /api/matches/:id/predict`
(lines 940-981), for an existing match: normalize, then check toss, innings
openness, lock time, player and score in order, and on success store the
rounded score. -/
def predictHandler (now : Int) (settings : Settings) (players : List Player)
    (m0 : RawMatch) (innings : Int) (playerId : String) (score : Option Rat) :
    PredictOutcome :=
  let m := normalizeMatch now settings m0
  let k := predictKey innings
  match getBattingTeams m with
  | none => { error := some PredictErr.tossNotSet, matchState := m }
  | some _ =>
    match inningsOf m k with
    | none => { error := some PredictErr.inningsNotOpen, matchState := m }
    | some inn =>
      if inn.status ≠ "open" then
        { error := some PredictErr.inningsNotOpen, matchState := m }
      else if isInningsLocked now (some inn) then
        { error := some PredictErr.locked, matchState := m }
      else if ¬ players.any (fun p => p.id = playerId) then
        { error := some PredictErr.unknownPlayer, matchState := m }
      else
        match score with
        | none => { error := some PredictErr.scoreOutOfRange, matchState := m }
        | some q =>
          if q < settings.minScore ∨ q > settings.maxScore then
            { error := some PredictErr.scoreOutOfRange, matchState := m }
          else
            { error := none,
              matchState := { m with predictions := setPrediction m.predictions k playerId (jsRound q) } }

/-- Setting `match.result[inningsKey] = null` when a result object exists
(line 1084). -/
def clearResult (r : Option ResultPair) (k : InningsKey) : Option ResultPair :=
  match r with
  | none => none
  | some rp => match k with
    | .innings1 => some { rp with innings1 := none }
    | .innings2 => some { rp with innings2 := none }

/-- The reopen route handler `POST /api/matches/:id/reopen`
(lines 1070-1096): normalize, then either reopen one innings (status `open`,
score cleared, stored result for that innings cleared) or reset the whole
match. -/
def reopenHandler (now : Int) (settings : Settings) (m0 : RawMatch)
    (innings : Option Int) : RawMatch :=
  let m := normalizeMatch now settings m0
  match innings with
  | some i =>
    if i = 1 ∨ i = 2 then
      let k := if i = 2 then InningsKey.innings2 else InningsKey.innings1
      let m1 : RawMatch := match k with
        | .innings1 =>
          { m with innings1 := m.innings1.map (fun inn => { inn with status := "open", score := none }) }
        | .innings2 =>
          { m with innings2 := m.innings2.map (fun inn => { inn with status := "open", score := none }) }
      { m1 with result := clearResult m1.result k }
    else
      { m with
        innings1 := m.innings1.map (fun inn => { inn with status := "open", score := none })
        innings2 := m.innings2.map (fun inn =>
          { inn with status := "pending", score := none, lockTime := none })
        result := none }
  | none =>
    { m with
      innings1 := m.innings1.map (fun inn => { inn with status := "open", score := none })
      innings2 := m.innings2.map (fun inn =>
        { inn with status := "pending", score := none, lockTime := none })
      result := none }

/-- Whether an innings' lock time has passed: the time-based part of
`isInningsLocked` (an absent lock time never locks). -/
def timeLocked (now : Int) (lt : Option Int) : Bool :=
  match lt with
  | some t => decide (t ≤ now)
  | none => false

/-- Just the time-dependent auto-locking part of normalization: advance each
open innings whose lock time has passed, touching nothing else. -/
def applyAutoLock (now : Int) (m : RawMatch) : RawMatch :=
  { m with
    innings1 := normalizeInningsStatus now m.innings1
    innings2 := normalizeInningsStatus now m.innings2 }

/-- A match record already in canonical shape: both innings objects present,
predictions split per innings, and the pending-to-open promotion already
performed (the data-model invariant that `innings2` is only `pending` while
`innings1` has not been scored). -/
def isCanonical (m : RawMatch) : Bool :=
  m.innings1.isSome && m.innings2.isSome &&
    (match m.predictions with
     | RawPreds.split (some _) (some _) => true
     | _ => false) &&
    !((m.innings1.map Innings.status = some "scored") &&
      (m.innings2.map Innings.status = some "pending"))

/-! ### Concrete room states used by witnesses and counterexamples -/

/-- A canonical match between teams `X` and `Y` with nothing recorded yet. -/
def mBase : RawMatch :=
  { teamA := "X", teamB := "Y", status := none, lockTime := none,
    actualScore := none, innings2LockTime := none, innings2Score := none,
    innings1 := some ⟨"open", none, none⟩, innings2 := some ⟨"pending", none, none⟩,
    predictions := RawPreds.split (some []) (some []), result := none, toss := none }

/-- Default room settings: no bonus, scores in `[60, 300]`. -/
def stBase : Settings := { bonusExact := 0, minScore := 60, maxScore := 300,
                           lockMinutesBeforeStart := 15 }

/-- Room state for the C1 witness: actual score 100, predictions 95 and 105. -/
def c1Preds : PredMap := [("A", 95), ("B", 105)]

/-- The two players of the witness room states. -/
def playersAB : List Player := [⟨"A", "Alice"⟩, ⟨"B", "Bob"⟩]

/-- A match whose stored innings1 result names a winner (`"A"`) that has no
recorded prediction: a stale stored result. -/
def mStale : RawMatch :=
  { mBase with
    innings1 := some ⟨"scored", none, some 100⟩,
    result := some ⟨some ⟨["A"], some 0⟩, none⟩ }

/-- Room state for the C2 counterexample: one player, one scored innings
whose stored result names a non-predicting winner. -/
def c2Data : RoomData :=
  { settings := { stBase with bonusExact := 2 }, players := [⟨"A", "Alice"⟩],
    matchList := [mStale] }

/-- A match whose innings1 is scored at 100 with predictions 100 (Alice,
exact) and 90 (Bob). -/
def c3Match : RawMatch :=
  { mBase with
    innings1 := some ⟨"scored", none, some 100⟩
    innings2 := some ⟨"open", none, none⟩
    predictions := RawPreds.split (some [("A", 100), ("B", 90)]) (some []) }

/-- Room state for the C2/C3 witnesses: Alice wins innings1 exactly with
bonus 2, Bob predicted 10 away. -/
def c3Data : RoomData :=
  { settings := { stBase with bonusExact := 2 }, players := playersAB,
    matchList := [c3Match] }

/-- Room state with a shared win: innings1 scored at 100 with predictions 95
and 105, so both players tie at one point with average diff 5 and sort by
name. -/
def c3TieData : RoomData :=
  { settings := stBase, players := playersAB,
    matchList := [{ mBase with
      innings1 := some ⟨"scored", none, some 100⟩
      predictions := RawPreds.split (some [("A", 95), ("B", 105)]) (some []) }] }

/-- Room state for the C10 witness: Alice has no predictions (null average);
Bob predicted exactly but a stale empty winner list left him at 0 points, so
both rows tie at 0 points and average 0, falling through to name order. -/
def c10Data : RoomData :=
  { settings := stBase, players := playersAB,
    matchList := [{ mBase with
      innings1 := some ⟨"scored", none, some 100⟩,
      predictions := RawPreds.split (some [("B", 100)]) (some []),
      result := some ⟨some ⟨[], some 0⟩, none⟩ }] }

/-- A legacy-shaped match record: no innings objects, flat predictions. -/
def mLegacy : RawMatch :=
  { mBase with
    innings1 := none
    innings2 := none
    predictions := RawPreds.flat [("A", 90)] }

/-- A match with the toss set (winner `X`, decision bat). -/
def mToss : RawMatch := { mBase with toss := some ⟨"X", "bat"⟩ }

/-- A match with the toss set whose innings1 is locked. -/
def mTossLocked : RawMatch := { mToss with innings1 := some ⟨"locked", none, none⟩ }

/-- A match without a toss whose innings1 is locked (C5 counterexample). -/
def mNoTossLocked : RawMatch := { mBase with innings1 := some ⟨"locked", none, none⟩ }

/-- A scored match holding a stored result, with innings2 still pending
(C9 counterexample: reopening innings1 first normalizes, which promotes
innings2). -/
def mScoredPending : RawMatch :=
  { mBase with
    innings1 := some ⟨"scored", none, some 150⟩,
    result := some ⟨some ⟨["A"], some 5⟩, none⟩ }

/-- A match whose two innings are independently scored, with results stored
for both (C9 witness). -/
def mBothScored : RawMatch :=
  { mBase with
    innings1 := some ⟨"scored", none, some 150⟩,
    innings2 := some ⟨"scored", some 500, some 160⟩,
    predictions := RawPreds.split (some [("A", 140)]) (some [("B", 165)]),
    result := some ⟨some ⟨["A"], some 10⟩, some ⟨["B"], some 5⟩⟩ }

/-! ### Generic lemmas about the fold used for `Math.min` -/

theorem foldl_min_le_init (l : List Int) (a : Int) : l.foldl min a ≤ a := by
  induction l generalizing a with
  | nil => simp
  | cons x xs ih =>
    exact le_trans (ih (min a x)) (min_le_left a x)

theorem foldl_min_le_mem {l : List Int} {x : Int} (hx : x ∈ l) (a : Int) :
    l.foldl min a ≤ x := by
  induction l generalizing a with
  | nil => cases hx
  | cons y ys ih =>
    rcases List.mem_cons.mp hx with rfl | h
    · exact le_trans (foldl_min_le_init ys (min a x)) (min_le_right a x)
    · exact ih h (min a y)

theorem foldl_min_mem (l : List Int) (a : Int) :
    l.foldl min a = a ∨ l.foldl min a ∈ l := by
  induction l generalizing a with
  | nil => left; rfl
  | cons y ys ih =>
    rcases ih (min a y) with h | h
    · rcases min_choice a y with h2 | h2
      · left; rw [List.foldl_cons, h, h2]
      · right; rw [List.foldl_cons, h, h2]; exact List.mem_cons_self y ys
    · right; exact List.mem_cons_of_mem y h

theorem listMin_le {l : List Int} {x : Int} (hx : x ∈ l) : listMin l ≤ x :=
  foldl_min_le_mem hx _

theorem listMin_mem {l : List Int} (h : l ≠ []) : listMin l ∈ l := by
  rcases foldl_min_mem l (l.headD 0) with h2 | h2
  · rw [listMin, h2]
    cases l with
    | nil => exact absurd rfl h
    | cons x xs => exact List.mem_cons_self x xs
  · exact h2

/-! ### C1: the result calculator -/

theorem mem_diffEntries {s : Int} {preds : PredMap} {players : List Player}
    {e : String × Int} :
    e ∈ diffEntries s preds players ↔
      ∃ p ∈ players, ∃ v, predLookup preds p.id = some v ∧ e = (p.id, |v - s|) := by
  unfold diffEntries
  rw [List.mem_filterMap]
  constructor
  · rintro ⟨p, hp, hfe⟩
    cases hv : predLookup preds p.id with
    | none => rw [hv] at hfe; cases hfe
    | some v =>
      rw [hv] at hfe
      exact ⟨p, hp, v, hv, by injection hfe with h; exact h.symm⟩
  · rintro ⟨p, hp, v, hv, rfl⟩
    exact ⟨p, hp, by rw [hv]⟩

/-- C1: `computeInningsResult` returns `null` when the actual score is
absent; otherwise, if no listed player has a recorded prediction it returns
empty winners with a null closest diff; otherwise the closest diff is the
minimum over predicting players of `|prediction − actualScore|`, it is
attained, and the winners are exactly the set of predicting players
achieving that minimum (all ties included). -/
theorem computeInningsResult_correct (a : Option Int) (preds : PredMap)
    (players : List Player) :
    (a = none → computeInningsResult a preds players = none) ∧
    (∀ s, a = some s →
      ((∀ p ∈ players, predLookup preds p.id = none) →
        computeInningsResult a preds players =
          some { winners := [], closestDiff := none }) ∧
      (∀ p0 ∈ players, ∀ v0, predLookup preds p0.id = some v0 →
        ∃ w d, computeInningsResult a preds players =
            some { winners := w, closestDiff := some d } ∧
          (∀ p ∈ players, ∀ v, predLookup preds p.id = some v → d ≤ |v - s|) ∧
          (∃ p ∈ players, ∃ v, predLookup preds p.id = some v ∧ |v - s| = d) ∧
          (∀ pid, pid ∈ w ↔ ∃ p ∈ players, p.id = pid ∧
            ∃ v, predLookup preds p.id = some v ∧ |v - s| = d))) := by
  constructor
  · rintro rfl; rfl
  · rintro s rfl
    constructor
    · intro hnone
      have hentries : diffEntries s preds players = [] := by
        apply List.filterMap_eq_nil_iff.mpr
        intro p hp
        rw [hnone p hp]
      simp [computeInningsResult, hentries]
    · intro p0 hp0 v0 hv0
      have he0 : (p0.id, |v0 - s|) ∈ diffEntries s preds players :=
        mem_diffEntries.mpr ⟨p0, hp0, v0, hv0, rfl⟩
      have hne : diffEntries s preds players ≠ [] := by
        intro h; rw [h] at he0; cases he0
      have hempty : (diffEntries s preds players).isEmpty = false := by
        cases h : diffEntries s preds players with
        | nil => exact absurd h hne
        | cons x xs => rfl
      refine ⟨((diffEntries s preds players).filter
          (fun e => e.2 = listMin ((diffEntries s preds players).map Prod.snd))).map
            Prod.fst,
        listMin ((diffEntries s preds players).map Prod.snd), ?_, ?_, ?_, ?_⟩
      · simp [computeInningsResult, hempty]
      · intro p hp v hv
        exact listMin_le (List.mem_map_of_mem Prod.snd
          (mem_diffEntries.mpr ⟨p, hp, v, hv, rfl⟩))
      · have hmem := listMin_mem (l := (diffEntries s preds players).map Prod.snd)
          (by simpa using hne)
        rcases List.mem_map.mp hmem with ⟨e, he, hsnd⟩
        rcases mem_diffEntries.mp he with ⟨p, hp, v, hv, rfl⟩
        exact ⟨p, hp, v, hv, hsnd⟩
      · intro pid
        constructor
        · intro hpid
          rcases List.mem_map.mp hpid with ⟨e, he, hfst⟩
          rcases List.mem_filter.mp he with ⟨he2, hd⟩
          rcases mem_diffEntries.mp he2 with ⟨p, hp, v, hv, rfl⟩
          exact ⟨p, hp, hfst, v, hv, by exact of_decide_eq_true hd⟩
        · rintro ⟨p, hp, rfl, v, hv, hd⟩
          apply List.mem_map.mpr
          refine ⟨(p.id, |v - s|), List.mem_filter.mpr ⟨mem_diffEntries.mpr
            ⟨p, hp, v, hv, rfl⟩, decide_eq_true hd⟩, rfl⟩

/-- Witness for C1 at the spec's example `computeInningsResult(100, {A:95,
B:105}, players)`: some minimum diff exists, is attained, bounds every
predicting player's diff, and the winners are characterized by it. -/
theorem computeInningsResult_correct_witness :
    ∃ w d, computeInningsResult (some 100) c1Preds playersAB =
        some { winners := w, closestDiff := some d } ∧
      (∀ p ∈ playersAB, ∀ v, predLookup c1Preds p.id = some v → d ≤ |v - 100|) ∧
      (∃ p ∈ playersAB, ∃ v, predLookup c1Preds p.id = some v ∧ |v - 100| = d) ∧
      (∀ pid, pid ∈ w ↔ ∃ p ∈ playersAB, p.id = pid ∧
        ∃ v, predLookup c1Preds p.id = some v ∧ |v - 100| = d) :=
  ((computeInningsResult_correct (some 100) c1Preds playersAB).2 100 rfl).2
    ⟨"A", "Alice"⟩ (by decide) 95 (by decide)

/-! ### C6: the toss resolver -/

/-- C6: for every match, resolving the batting order returns absent when the
toss is unset or its winner or decision field is unset; otherwise, when the
decision is `"bat"` the toss winner is assigned to innings1 and the other of
teamA/teamB to innings2, and when the decision is `"field"` the winner is
assigned to innings2 and the other team to innings1 (`getBattingTeams` is a
pure function, so it has no side effects on the match). -/
theorem getBattingTeams_correct (m : RawMatch) :
    (m.toss = none → getBattingTeams m = none) ∧
    (∀ t, m.toss = some t → t.winner = "" ∨ t.decision = "" →
      getBattingTeams m = none) ∧
    (∀ t, m.toss = some t → t.winner ≠ "" → t.decision = "bat" →
      getBattingTeams m = some
        { innings1 := t.winner
          innings2 := if t.winner = m.teamA then m.teamB else m.teamA }) ∧
    (∀ t, m.toss = some t → t.winner ≠ "" → t.decision = "field" →
      getBattingTeams m = some
        { innings1 := if t.winner = m.teamA then m.teamB else m.teamA
          innings2 := t.winner }) := by
  refine ⟨fun h => by simp [getBattingTeams, h], fun t ht h => ?_, fun t ht hw hd => ?_,
    fun t ht hw hd => ?_⟩
  · simp only [getBattingTeams, ht]
    rw [if_pos h]
  · have hd' : ¬ t.decision = "" := by rw [hd]; decide
    simp only [getBattingTeams, ht]
    rw [if_neg (by tauto), if_pos hd]
  · have hd' : ¬ t.decision = "" := by rw [hd]; decide
    simp only [getBattingTeams, ht]
    rw [if_neg (by tauto), if_neg (by rw [hd]; decide), if_pos hd]

/-- Witness for C6, at the spec's example: winner teamA electing to field
bats second. -/
theorem getBattingTeams_correct_witness :
    getBattingTeams { mBase with toss := some ⟨"X", "field"⟩ } =
      some { innings1 := "Y", innings2 := "X" } := by
  have h := (getBattingTeams_correct { mBase with toss := some ⟨"X", "field"⟩ }).2.2.2
    ⟨"X", "field"⟩ rfl (by decide) rfl
  simpa [mBase] using h

/-! ### Lemmas about innings normalization -/

theorem isInningsLocked_open {now : Int} {i : Innings} (h : i.status = "open") :
    isInningsLocked now (some i) = timeLocked now i.lockTime := by
  cases hlt : i.lockTime <;> simp [isInningsLocked, timeLocked, h, hlt]

theorem normalizeInningsStatus_eq (now : Int) (i : Innings) :
    normalizeInningsStatus now (some i) =
      some (if i.status = "open" ∧ timeLocked now i.lockTime = true then
        { i with status := "locked" } else i) := by
  by_cases h : i.status = "open"
  · simp only [normalizeInningsStatus, isInningsLocked_open h, h, true_and]
    split <;> rfl
  · simp [normalizeInningsStatus, h]

theorem normalizeInningsStatus_idem (now : Int) (oi : Option Innings) :
    normalizeInningsStatus now (normalizeInningsStatus now oi) =
      normalizeInningsStatus now oi := by
  cases oi with
  | none => rfl
  | some i =>
    rw [normalizeInningsStatus_eq]
    by_cases h : i.status = "open" ∧ timeLocked now i.lockTime = true
    · rw [if_pos h, normalizeInningsStatus_eq, if_neg (by simp)]
    · rw [if_neg h, normalizeInningsStatus_eq, if_neg h]

theorem normalizeInningsStatus_lockTime (now : Int) (i : Innings) :
    ∃ j, normalizeInningsStatus now (some i) = some j ∧
      j.lockTime = i.lockTime ∧ j.score = i.score ∧
      (j.status = i.status ∨ (i.status = "open" ∧ j.status = "locked")) := by
  rw [normalizeInningsStatus_eq]
  by_cases h : i.status = "open" ∧ timeLocked now i.lockTime = true
  · refine ⟨{ i with status := "locked" }, ?_, rfl, rfl, Or.inr ⟨h.1, rfl⟩⟩
    rw [if_pos h]
  · refine ⟨i, ?_, rfl, rfl, Or.inl rfl⟩
    rw [if_neg h]

theorem normalizeInningsStatus_not_open {now : Int} {i : Innings}
    (h : i.status ≠ "open") : normalizeInningsStatus now (some i) = some i := by
  rw [normalizeInningsStatus_eq, if_neg (by tauto)]

theorem promoteInnings2_eq (st : Settings) (i1 i2 : Innings) :
    promoteInnings2 st i1 i2 =
      if i1.status = "scored" ∧ i2.status = "pending" then
        { i2 with status := "open" } else i2 := by
  unfold promoteInnings2
  by_cases h : i1.status = "scored" ∧ i2.status = "pending"
  · rw [if_pos h, if_pos h]
    dsimp only
    split
    · next hc =>
      obtain ⟨hlt, _⟩ := hc
      cases i2
      simp_all
    · rfl
  · rw [if_neg h, if_neg h]

theorem promoteInnings2_not_pending {st : Settings} {i1 i2 : Innings}
    (h : i2.status ≠ "pending") : promoteInnings2 st i1 i2 = i2 := by
  rw [promoteInnings2_eq, if_neg (by tauto)]

theorem normalizePreds_split (p : RawPreds) :
    ∃ p1 p2, normalizePreds p = RawPreds.split (some p1) (some p2) := by
  cases p with
  | bad => exact ⟨[], [], rfl⟩
  | flat legacy => exact ⟨legacy, [], rfl⟩
  | split a b =>
    cases a <;> cases b
    · exact ⟨[], [], rfl⟩
    · next b => exact ⟨[], b, rfl⟩
    · next a => exact ⟨a, [], rfl⟩
    · next a b => exact ⟨a, b, rfl⟩

theorem normalizePreds_idem (p : RawPreds) :
    normalizePreds (normalizePreds p) = normalizePreds p := by
  obtain ⟨p1, p2, hp⟩ := normalizePreds_split p
  rw [hp]
  rfl

/-! ### C7: the normalizer establishes the canonical shape -/

/-- C7: for every input match record, normalization succeeds (it is a total
function) and afterwards the match has present `innings1` and `innings2`
objects and present `predictions.innings1`/`predictions.innings2` mappings;
an innings2 that is pending while innings1 is scored is promoted to open
(and then auto-locked if its lock time has passed); and every innings whose
status is open and whose lock time is ≤ now has its status advanced to
locked. -/
theorem normalizeMatch_invariants (now : Int) (st : Settings) (m : RawMatch) :
    ((normalizeMatch now st m).innings1.isSome = true) ∧
    ((normalizeMatch now st m).innings2.isSome = true) ∧
    (∃ p1 p2, (normalizeMatch now st m).predictions =
      RawPreds.split (some p1) (some p2)) ∧
    ((effInnings1 m).status = "scored" → (effInnings2 m).status = "pending" →
      (normalizeMatch now st m).innings2 = some
        { status := if timeLocked now (effInnings2 m).lockTime then "locked" else "open"
          lockTime := (effInnings2 m).lockTime
          score := (effInnings2 m).score }) ∧
    ((effInnings1 m).status = "open" → timeLocked now (effInnings1 m).lockTime = true →
      (normalizeMatch now st m).innings1 = some { effInnings1 m with status := "locked" }) ∧
    ((effInnings2 m).status = "open" → timeLocked now (effInnings2 m).lockTime = true →
      (normalizeMatch now st m).innings2 = some { effInnings2 m with status := "locked" }) := by
  refine ⟨?_, ?_, ?_, ?_, ?_, ?_⟩
  · rw [normalizeMatch, normalizeInningsStatus_eq]; rfl
  · show (normalizeInningsStatus now (some _)).isSome = true
    rw [normalizeInningsStatus_eq]; rfl
  · exact normalizePreds_split m.predictions
  · intro h1 h2
    show normalizeInningsStatus now
      (some (promoteInnings2 st (effInnings1 m) (effInnings2 m))) = _
    rw [promoteInnings2_eq, if_pos ⟨h1, h2⟩]
    generalize effInnings2 m = i2e
    obtain ⟨s2, lt2, sc2⟩ := i2e
    rw [normalizeInningsStatus_eq]
    cases hl : timeLocked now lt2 <;> simp [hl]
  · intro h1 hl
    show normalizeInningsStatus now (some (effInnings1 m)) = _
    rw [normalizeInningsStatus_eq, if_pos ⟨h1, hl⟩]
  · intro h2 hl
    show normalizeInningsStatus now
      (some (promoteInnings2 st (effInnings1 m) (effInnings2 m))) = _
    rw [promoteInnings2_not_pending (by rw [h2]; decide),
      normalizeInningsStatus_eq, if_pos ⟨h2, hl⟩]

/-- Witness for C7: at time 100, a canonical-shaped match whose innings1 is
scored and whose innings2 is pending with no lock time has its innings2
promoted to open, and an open innings1 with lock time 50 is auto-locked. -/
theorem normalizeMatch_invariants_witness :
    ((normalizeMatch 100 stBase mScoredPending).innings2 = some
      { status := "open", lockTime := none, score := none }) ∧
    ((normalizeMatch 100 stBase
        { mBase with innings1 := some ⟨"open", some 50, none⟩ }).innings1 =
      some { status := "locked", lockTime := some 50, score := none }) := by
  constructor
  · have h := (normalizeMatch_invariants 100 stBase mScoredPending).2.2.2.1
      (by decide) (by decide)
    simpa using h
  · have h := (normalizeMatch_invariants 100 stBase
      { mBase with innings1 := some ⟨"open", some 50, none⟩ }).2.2.2.2.1
      (by decide) (by decide)
    simpa using h

/-! ### C8: normalization is idempotent -/

theorem normalizeMatch_canonical_eq (now : Int) (st : Settings) (m : RawMatch)
    (h : isCanonical m = true) : normalizeMatch now st m = applyAutoLock now m := by
  simp only [isCanonical, Bool.and_eq_true, Bool.not_eq_true',
    Bool.and_eq_false_iff, decide_eq_false_iff_not] at h
  obtain ⟨⟨⟨hs1, hs2⟩, hpred⟩, hnp⟩ := h
  obtain ⟨i1, hi1⟩ := Option.isSome_iff_exists.mp hs1
  obtain ⟨i2, hi2⟩ := Option.isSome_iff_exists.mp hs2
  have heff1 : effInnings1 m = i1 := by rw [effInnings1, hi1]; rfl
  have heff2 : effInnings2 m = i2 := by rw [effInnings2, hi2]; rfl
  have hnp' : ¬ (i1.status = "scored" ∧ i2.status = "pending") := by
    rintro ⟨ha, hb⟩
    rcases hnp with h | h
    · exact h (by rw [hi1]; simp [ha])
    · exact h (by rw [hi2]; simp [hb])
  have hpromote : promoteInnings2 st (effInnings1 m) (effInnings2 m) = i2 := by
    rw [heff1, heff2, promoteInnings2_eq, if_neg hnp']
  have hpreds : normalizePreds m.predictions = m.predictions := by
    cases hp : m.predictions with
    | bad => rw [hp] at hpred; cases hpred
    | flat legacy => rw [hp] at hpred; cases hpred
    | split a b =>
      cases a with
      | none => rw [hp] at hpred; cases hpred
      | some p1 =>
        cases b with
        | none => rw [hp] at hpred; cases hpred
        | some p2 => rfl
  show ({ m with
      innings1 := normalizeInningsStatus now (some (effInnings1 m))
      innings2 := normalizeInningsStatus now
        (some (promoteInnings2 st (effInnings1 m) (effInnings2 m)))
      predictions := normalizePreds m.predictions
      toss := m.toss } : RawMatch) = _
  rw [hpromote, heff1, hpreds, applyAutoLock, hi1, hi2]

theorem isCanonical_normalizeMatch (now : Int) (st : Settings) (m : RawMatch) :
    isCanonical (normalizeMatch now st m) = true := by
  obtain ⟨j1, hj1, _, _, hst1⟩ :=
    normalizeInningsStatus_lockTime now (effInnings1 m)
  obtain ⟨j2, hj2, _, _, hst2⟩ := normalizeInningsStatus_lockTime now
    (promoteInnings2 st (effInnings1 m) (effInnings2 m))
  obtain ⟨p1, p2, hp⟩ := normalizePreds_split m.predictions
  have hm1 : (normalizeMatch now st m).innings1 = some j1 := hj1
  have hm2 : (normalizeMatch now st m).innings2 = some j2 := hj2
  have hmp : (normalizeMatch now st m).predictions = RawPreds.split (some p1) (some p2) := hp
  have hnsp : ¬ (j1.status = "scored" ∧ j2.status = "pending") := by
    rintro ⟨ha, hb⟩
    have h1s : (effInnings1 m).status = "scored" := by
      rcases hst1 with h | ⟨_, h⟩
      · rw [← h, ha]
      · rw [h] at ha; exact absurd ha (by decide)
    have h2s : (promoteInnings2 st (effInnings1 m) (effInnings2 m)).status = "pending" := by
      rcases hst2 with h | ⟨_, h⟩
      · rw [← h, hb]
      · rw [h] at hb; exact absurd hb (by decide)
    rw [promoteInnings2_eq] at h2s
    by_cases hg : (effInnings1 m).status = "scored" ∧ (effInnings2 m).status = "pending"
    · rw [if_pos hg] at h2s
      exact (by decide : ¬ ("open" : String) = "pending") h2s
    · rw [if_neg hg] at h2s
      exact hg ⟨h1s, h2s⟩
  simp only [isCanonical, hm1, hm2, hmp, Bool.and_eq_true, Bool.not_eq_true',
    Bool.and_eq_false_iff, decide_eq_false_iff_not]
  refine ⟨⟨⟨by trivial, by trivial⟩, by trivial⟩, ?_⟩
  simpa using not_and_or.mp hnsp

theorem applyAutoLock_normalize (now : Int) (st : Settings) (m : RawMatch) :
    applyAutoLock now (normalizeMatch now st m) = normalizeMatch now st m := by
  have h1 : normalizeInningsStatus now ((normalizeMatch now st m).innings1) =
      (normalizeMatch now st m).innings1 :=
    normalizeInningsStatus_idem now (some (effInnings1 m))
  have h2 : normalizeInningsStatus now ((normalizeMatch now st m).innings2) =
      (normalizeMatch now st m).innings2 :=
    normalizeInningsStatus_idem now
      (some (promoteInnings2 st (effInnings1 m) (effInnings2 m)))
  rw [applyAutoLock, h1, h2]

/-- C8: at any fixed current time, normalization is idempotent — applying
`normalizeMatch` twice yields the same record as applying it once — and on
an already-canonical match it changes nothing except the time-dependent
auto-locking of open innings whose lock time has passed. -/
theorem normalizeMatch_idempotent (now : Int) (st : Settings) (m : RawMatch) :
    normalizeMatch now st (normalizeMatch now st m) = normalizeMatch now st m ∧
    (isCanonical m = true → normalizeMatch now st m = applyAutoLock now m) :=
  ⟨(normalizeMatch_canonical_eq now st _ (isCanonical_normalizeMatch now st m)).trans
      (applyAutoLock_normalize now st m),
    normalizeMatch_canonical_eq now st m⟩

/-- Witness for C8: idempotence at a concrete legacy-shaped match, and the
canonical-match case at a concrete canonical match. -/
theorem normalizeMatch_idempotent_witness :
    (normalizeMatch 100 stBase (normalizeMatch 100 stBase mLegacy) =
      normalizeMatch 100 stBase mLegacy) ∧
    (normalizeMatch 100 stBase mToss = applyAutoLock 100 mToss) :=
  ⟨(normalizeMatch_idempotent 100 stBase mLegacy).1,
    (normalizeMatch_idempotent 100 stBase mToss).2 (by decide)⟩

/-! ### C9: reopening a single innings -/

theorem promoteInnings2_fields (st : Settings) (a b : Innings) :
    (promoteInnings2 st a b).lockTime = b.lockTime ∧
    (promoteInnings2 st a b).score = b.score := by
  rw [promoteInnings2_eq]
  split <;> exact ⟨rfl, rfl⟩

theorem resultGet_clearResult_same (r : Option ResultPair) (k : InningsKey) :
    resultGet (clearResult r k) k = none := by
  cases r with
  | none => rfl
  | some rp => cases k <;> rfl

theorem resultGet_clearResult_other (r : Option ResultPair) :
    resultGet (clearResult r InningsKey.innings1) InningsKey.innings2 =
      resultGet r InningsKey.innings2 := by
  cases r with
  | none => rfl
  | some rp => rfl

/-- C9 (counterexample to the claim as stated): reopening innings1 on a
scored match whose innings2 is still pending does change innings2's status —
the normalization performed by the handler promotes it from pending to
open. -/
theorem reopen_innings1_cex :
    mScoredPending.innings2 = some ⟨"pending", none, none⟩ ∧
    (reopenHandler 0 stBase mScoredPending (some 1)).innings2 =
      some ⟨"open", none, none⟩ :=
  ⟨rfl, rfl⟩

/-- C9 (amended): reopening innings1 alone sets innings1's status to open,
clears its score and its stored result, and leaves innings2's score, lock
time and stored result unchanged; innings2's status is also unchanged except
for the normalization applied before the transition (pending-to-open
promotion when innings1 was scored, and time-based auto-lock) — in
particular, an independently scored innings2 is wholly unaltered.  The
reopen is available regardless of the innings' current state (the handler
has no status precondition). -/
theorem reopen_innings1_frame (now : Int) (st : Settings) (m : RawMatch)
    (i1 i2 : Innings) (h1 : m.innings1 = some i1) (h2 : m.innings2 = some i2) :
    (∃ j1, (reopenHandler now st m (some 1)).innings1 = some j1 ∧
      j1.status = "open" ∧ j1.score = none ∧ j1.lockTime = i1.lockTime) ∧
    resultGet (reopenHandler now st m (some 1)).result InningsKey.innings1 = none ∧
    (reopenHandler now st m (some 1)).innings2 = (normalizeMatch now st m).innings2 ∧
    (reopenHandler now st m (some 1)).innings2.map Innings.score = some i2.score ∧
    (reopenHandler now st m (some 1)).innings2.map Innings.lockTime = some i2.lockTime ∧
    resultGet (reopenHandler now st m (some 1)).result InningsKey.innings2 =
      resultGet m.result InningsKey.innings2 ∧
    (i2.status = "scored" → (reopenHandler now st m (some 1)).innings2 = some i2) := by
  have heff1 : effInnings1 m = i1 := by rw [effInnings1, h1]; rfl
  have heff2 : effInnings2 m = i2 := by rw [effInnings2, h2]; rfl
  have hr : reopenHandler now st m (some 1) =
      { normalizeMatch now st m with
        innings1 := (normalizeMatch now st m).innings1.map
          (fun inn => { inn with status := "open", score := none })
        result := clearResult (normalizeMatch now st m).result InningsKey.innings1 } := by
    rfl
  have hinn2 : (normalizeMatch now st m).innings2 =
      normalizeInningsStatus now (some (promoteInnings2 st i1 i2)) := by
    show normalizeInningsStatus now
      (some (promoteInnings2 st (effInnings1 m) (effInnings2 m))) = _
    rw [heff1, heff2]
  have hres : (normalizeMatch now st m).result = m.result := rfl
  obtain ⟨j2, hj2, hj2lt, hj2sc, _⟩ :=
    normalizeInningsStatus_lockTime now (promoteInnings2 st i1 i2)
  obtain ⟨hplt, hpsc⟩ := promoteInnings2_fields st i1 i2
  refine ⟨?_, ?_, ?_, ?_, ?_, ?_, ?_⟩
  · obtain ⟨j1, hj1, hj1lt, _, _⟩ := normalizeInningsStatus_lockTime now i1
    have hm1 : (normalizeMatch now st m).innings1 = some j1 := by
      show normalizeInningsStatus now (some (effInnings1 m)) = some j1
      rw [heff1, hj1]
    refine ⟨{ j1 with status := "open", score := none }, ?_, rfl, rfl, hj1lt⟩
    rw [hr]
    show ((normalizeMatch now st m).innings1.map
      (fun inn => { inn with status := "open", score := none })) = _
    rw [hm1, Option.map_some']
  · rw [hr]
    show resultGet (clearResult (normalizeMatch now st m).result InningsKey.innings1)
      InningsKey.innings1 = none
    exact resultGet_clearResult_same _ _
  · rw [hr]
  · rw [hr]
    show ((normalizeMatch now st m).innings2.map Innings.score) = _
    rw [hinn2, hj2, Option.map_some', hj2sc, hpsc]
  · rw [hr]
    show ((normalizeMatch now st m).innings2.map Innings.lockTime) = _
    rw [hinn2, hj2, Option.map_some', hj2lt, hplt]
  · rw [hr]
    show resultGet (clearResult (normalizeMatch now st m).result InningsKey.innings1)
      InningsKey.innings2 = _
    rw [resultGet_clearResult_other, hres]
  · intro hsc
    rw [hr]
    show (normalizeMatch now st m).innings2 = some i2
    rw [hinn2, promoteInnings2_not_pending (by rw [hsc]; decide),
      normalizeInningsStatus_not_open (by rw [hsc]; decide)]

/-- Witness for C9 (amended), at a match whose innings2 is independently
scored: reopening innings1 leaves innings2 wholly unaltered. -/
theorem reopen_innings1_frame_witness :
    (reopenHandler 0 stBase mBothScored (some 1)).innings2 =
      some ⟨"scored", some 500, some 160⟩ :=
  (reopen_innings1_frame 0 stBase mBothScored ⟨"scored", none, some 150⟩
    ⟨"scored", some 500, some 160⟩ rfl rfl).2.2.2.2.2.2 rfl

/-! ### C4 and C5: the predict route -/

theorem normalized_open_not_locked {now : Int} {oi : Option Innings} {inn : Innings}
    (h : normalizeInningsStatus now oi = some inn) (hopen : inn.status = "open") :
    isInningsLocked now (some inn) = false := by
  cases oi with
  | none => cases h
  | some i =>
    rw [normalizeInningsStatus_eq] at h
    by_cases hc : i.status = "open" ∧ timeLocked now i.lockTime = true
    · rw [if_pos hc] at h
      injection h with h
      rw [← h] at hopen
      exact absurd hopen ((by decide : ¬ ("locked" : String) = "open"))
    · rw [if_neg hc] at h
      injection h with h
      rw [← h] at hopen ⊢
      rw [isInningsLocked_open hopen]
      cases ht : timeLocked now i.lockTime
      · rfl
      · exact absurd ⟨hopen, ht⟩ hc

theorem inningsOf_normalizeMatch (now : Int) (st : Settings) (m : RawMatch)
    (k : InningsKey) :
    inningsOf (normalizeMatch now st m) k = normalizeInningsStatus now
      (some (match k with
        | InningsKey.innings1 => effInnings1 m
        | InningsKey.innings2 => promoteInnings2 st (effInnings1 m) (effInnings2 m))) := by
  cases k <;> rfl

theorem predLookup_overwrite (m : PredMap) (k : String) (v : Int)
    (h : m.any (fun p => p.1 = k) = true) :
    predLookup (m.map (fun p => if p.1 = k then (k, v) else p)) k = some v := by
  induction m with
  | nil => cases h
  | cons a t ih =>
    obtain ⟨a1, a2⟩ := a
    rw [List.map_cons]
    by_cases hk : a1 = k
    · rw [if_pos hk]
      simp [predLookup]
    · rw [if_neg hk]
      simp only [predLookup]
      rw [if_neg hk]
      apply ih
      rw [List.any_cons] at h
      simpa [hk] using h

theorem predLookup_append_new (m : PredMap) (k : String) (v : Int)
    (h : m.any (fun p => p.1 = k) = false) :
    predLookup (m ++ [(k, v)]) k = some v := by
  induction m with
  | nil => simp [predLookup]
  | cons a t ih =>
    obtain ⟨a1, a2⟩ := a
    rw [List.any_cons] at h
    rcases Bool.or_eq_false_iff.mp h with ⟨h1, h2⟩
    have hk : ¬ a1 = k := by simpa using h1
    rw [List.cons_append]
    simp only [predLookup]
    rw [if_neg hk]
    exact ih h2

theorem predLookup_mapSet_self (m : PredMap) (k : String) (v : Int) :
    predLookup (mapSet m k v) k = some v := by
  unfold mapSet
  cases h : m.any (fun p => p.1 = k)
  · rw [if_neg (by simp)]
    exact predLookup_append_new m k v h
  · rw [if_pos rfl]
    exact predLookup_overwrite m k v h

theorem predLookup_overwrite_other (m : PredMap) (k k2 : String) (v : Int)
    (h : k2 ≠ k) :
    predLookup (m.map (fun p => if p.1 = k then (k, v) else p)) k2 =
      predLookup m k2 := by
  induction m with
  | nil => rfl
  | cons a t ih =>
    obtain ⟨a1, a2⟩ := a
    rw [List.map_cons]
    by_cases hk : a1 = k
    · rw [if_pos hk]
      simp only [predLookup]
      have hne1 : ¬ (k = k2) := fun he => h he.symm
      have hne2 : ¬ (a1 = k2) := by rw [hk]; exact hne1
      rw [if_neg hne1, if_neg hne2]
      exact ih
    · rw [if_neg hk]
      simp only [predLookup]
      by_cases h2 : a1 = k2
      · rw [if_pos h2, if_pos h2]
      · rw [if_neg h2, if_neg h2]
        exact ih

theorem predLookup_append_other (m : PredMap) (k k2 : String) (v : Int)
    (h : k2 ≠ k) :
    predLookup (m ++ [(k, v)]) k2 = predLookup m k2 := by
  induction m with
  | nil =>
    simp only [List.nil_append, predLookup]
    rw [if_neg (fun he => h he.symm)]
  | cons a t ih =>
    obtain ⟨a1, a2⟩ := a
    rw [List.cons_append]
    simp only [predLookup]
    by_cases h2 : a1 = k2
    · rw [if_pos h2, if_pos h2]
    · rw [if_neg h2, if_neg h2]
      exact ih

theorem predLookup_mapSet_other (m : PredMap) (k k2 : String) (v : Int)
    (h : k2 ≠ k) : predLookup (mapSet m k v) k2 = predLookup m k2 := by
  unfold mapSet
  cases hany : m.any (fun p => p.1 = k)
  · rw [if_neg (by simp)]
    exact predLookup_append_other m k k2 v h
  · rw [if_pos rfl]
    exact predLookup_overwrite_other m k k2 v h

theorem rawPredsGet_setPrediction_same (p1 p2 : PredMap) (k : InningsKey)
    (pid : String) (v : Int) :
    rawPredsGet (setPrediction (RawPreds.split (some p1) (some p2)) k pid v) k =
      mapSet (rawPredsGet (RawPreds.split (some p1) (some p2)) k) pid v := by
  cases k <;> rfl

theorem rawPredsGet_setPrediction_other (p1 p2 : PredMap) (k k2 : InningsKey)
    (pid : String) (v : Int) (h : k2 ≠ k) :
    rawPredsGet (setPrediction (RawPreds.split (some p1) (some p2)) k pid v) k2 =
      rawPredsGet (RawPreds.split (some p1) (some p2)) k2 := by
  cases k <;> cases k2
  · exact absurd rfl h
  · rfl
  · rfl
  · exact absurd rfl h

theorem predictHandler_not_open (now : Int) (st : Settings) (players : List Player)
    (m0 : RawMatch) (innings : Int) (playerId : String) (score : Option Rat)
    (bt : BattingTeams) (inn : Innings)
    (hb : getBattingTeams (normalizeMatch now st m0) = some bt)
    (hi : inningsOf (normalizeMatch now st m0) (predictKey innings) = some inn)
    (hno : inn.status ≠ "open") :
    predictHandler now st players m0 innings playerId score =
      { error := some PredictErr.inningsNotOpen,
        matchState := normalizeMatch now st m0 } := by
  simp only [predictHandler, hb, hi]
  rw [if_pos hno]

theorem predictHandler_open_shape (now : Int) (st : Settings)
    (players : List Player) (m0 : RawMatch) (innings : Int) (playerId : String)
    (score : Option Rat) (bt : BattingTeams) (inn : Innings)
    (hb : getBattingTeams (normalizeMatch now st m0) = some bt)
    (hio : inningsOf (normalizeMatch now st m0) (predictKey innings) = some inn)
    (hopen : inn.status = "open") :
    predictHandler now st players m0 innings playerId score =
      (if ¬ players.any (fun p => p.id = playerId) then
        { error := some PredictErr.unknownPlayer,
          matchState := normalizeMatch now st m0 }
      else match score with
        | none =>
          { error := some PredictErr.scoreOutOfRange,
            matchState := normalizeMatch now st m0 }
        | some q =>
          if q < st.minScore ∨ q > st.maxScore then
            { error := some PredictErr.scoreOutOfRange,
              matchState := normalizeMatch now st m0 }
          else
            { error := none,
              matchState :=
                { normalizeMatch now st m0 with
                  predictions := setPrediction (normalizeMatch now st m0).predictions
                    (predictKey innings) playerId (jsRound q) } }) := by
  have hlockf : isInningsLocked now (some inn) = false :=
    normalized_open_not_locked
      ((inningsOf_normalizeMatch now st m0 (predictKey innings)).symm.trans hio) hopen
  simp only [predictHandler, hb, hio]
  rw [if_neg (not_not_intro hopen), hlockf]
  rw [if_neg (by simp)]

/-- C4 (counterexample to the claim as stated): a finite but non-integral
raw score inside the score bounds is not rejected with `ScoreOutOfRange` —
the handler accepts 100.5 and stores the rounded value 101. -/
theorem predict_nonInteger_cex :
    (mkRat 201 2).den ≠ 1 ∧
    stBase.minScore ≤ mkRat 201 2 ∧ mkRat 201 2 ≤ stBase.maxScore ∧
    (predictHandler 0 stBase playersAB mToss 1 "A"
      (some (mkRat 201 2))).error = none ∧
    predLookup (rawPredsGet (predictHandler 0 stBase playersAB mToss 1 "A"
        (some (mkRat 201 2))).matchState.predictions InningsKey.innings1) "A" =
      some 101 := by
  refine ⟨by decide, by decide, by decide, ?_, ?_⟩ <;> decide

/-- C4 (amended): on an existing match the predict preconditions are checked
in order with the first failure determining the error: (1) batting order
resolvable from the toss, else TossNotSet; (2) target innings status exactly
open after normalization (which re-derives lock status from lockTime vs.
now), else InningsNotOpen; (3) playerId a known room player, else
UnknownPlayer; (4) the raw score a finite number within
`[minScore, maxScore]` inclusive (integrality is NOT required), else
ScoreOutOfRange; on success the score rounded to the nearest integer is
stored under `predictions[inningsKey][playerId]`, overwriting any prior
value for that player and innings and leaving all other entries and the
other innings' mapping unchanged. -/
theorem predict_preconditions (now : Int) (st : Settings) (players : List Player)
    (m0 : RawMatch) (innings : Int) (playerId : String) (score : Option Rat) :
    (getBattingTeams (normalizeMatch now st m0) = none →
      predictHandler now st players m0 innings playerId score =
        { error := some PredictErr.tossNotSet,
          matchState := normalizeMatch now st m0 }) ∧
    (∀ bt, getBattingTeams (normalizeMatch now st m0) = some bt →
      (((inningsOf (normalizeMatch now st m0) (predictKey innings)).map
          Innings.status ≠ some "open") →
        predictHandler now st players m0 innings playerId score =
          { error := some PredictErr.inningsNotOpen,
            matchState := normalizeMatch now st m0 }) ∧
      (∀ inn, inningsOf (normalizeMatch now st m0) (predictKey innings) = some inn →
        inn.status = "open" →
        ((players.any (fun p => p.id = playerId)) = false →
          predictHandler now st players m0 innings playerId score =
            { error := some PredictErr.unknownPlayer,
              matchState := normalizeMatch now st m0 }) ∧
        ((players.any (fun p => p.id = playerId)) = true →
          (score = none →
            predictHandler now st players m0 innings playerId score =
              { error := some PredictErr.scoreOutOfRange,
                matchState := normalizeMatch now st m0 }) ∧
          (∀ q, score = some q → (q < st.minScore ∨ q > st.maxScore) →
            predictHandler now st players m0 innings playerId score =
              { error := some PredictErr.scoreOutOfRange,
                matchState := normalizeMatch now st m0 }) ∧
          (∀ q, score = some q → st.minScore ≤ q → q ≤ st.maxScore →
            (predictHandler now st players m0 innings playerId score).error = none ∧
            predLookup (rawPredsGet (predictHandler now st players m0 innings
                playerId score).matchState.predictions (predictKey innings))
              playerId = some (jsRound q) ∧
            (∀ pid2, pid2 ≠ playerId →
              predLookup (rawPredsGet (predictHandler now st players m0 innings
                  playerId score).matchState.predictions (predictKey innings)) pid2 =
              predLookup (rawPredsGet (normalizeMatch now st m0).predictions
                (predictKey innings)) pid2) ∧
            (∀ k2, k2 ≠ predictKey innings →
              rawPredsGet (predictHandler now st players m0 innings playerId
                  score).matchState.predictions k2 =
              rawPredsGet (normalizeMatch now st m0).predictions k2))))) := by
  refine ⟨?_, ?_⟩
  · intro h
    simp only [predictHandler, h]
  · intro bt hb
    refine ⟨?_, ?_⟩
    · intro hsts
      cases hio : inningsOf (normalizeMatch now st m0) (predictKey innings) with
      | none => simp only [predictHandler, hb, hio]
      | some inn =>
        refine predictHandler_not_open now st players m0 innings playerId score
          bt inn hb hio ?_
        intro he
        exact hsts (by rw [hio]; simp [he])
    · intro inn hio hopen
      have hshape := predictHandler_open_shape now st players m0 innings playerId
        score bt inn hb hio hopen
      refine ⟨?_, ?_⟩
      · intro hpf
        rw [hshape, if_pos (by simp [hpf])]
      · intro hpt
        have hnp : ¬ ¬ players.any (fun p => p.id = playerId) = true :=
          not_not_intro hpt
        refine ⟨?_, ?_, ?_⟩
        · rintro rfl
          rw [hshape, if_neg hnp]
        · rintro q rfl hrange
          rw [hshape, if_neg hnp]
          show (if q < st.minScore ∨ q > st.maxScore then _ else _) = _
          rw [if_pos hrange]
        · rintro q rfl hlo hhi
          have hnr : ¬ (q < st.minScore ∨ q > st.maxScore) := by
            rintro (h | h)
            · exact absurd hlo (not_le.mpr h)
            · exact absurd hhi (not_le.mpr h)
          have hsucc : predictHandler now st players m0 innings playerId (some q) =
              { error := none,
                matchState := { normalizeMatch now st m0 with
                  predictions := setPrediction (normalizeMatch now st m0).predictions
                    (predictKey innings) playerId (jsRound q) } } := by
            rw [hshape, if_neg hnp]
            show (if q < st.minScore ∨ q > st.maxScore then _ else _) = _
            rw [if_neg hnr]
          obtain ⟨p1, p2, hsp⟩ := normalizePreds_split m0.predictions
          have hnmp : (normalizeMatch now st m0).predictions =
              RawPreds.split (some p1) (some p2) := hsp
          refine ⟨by rw [hsucc], ?_, ?_, ?_⟩
          · rw [hsucc]
            show predLookup (rawPredsGet (setPrediction
              (normalizeMatch now st m0).predictions (predictKey innings) playerId
                (jsRound q)) (predictKey innings)) playerId = _
            rw [hnmp, rawPredsGet_setPrediction_same]
            exact predLookup_mapSet_self _ _ _
          · intro pid2 hpid2
            rw [hsucc]
            show predLookup (rawPredsGet (setPrediction
              (normalizeMatch now st m0).predictions (predictKey innings) playerId
                (jsRound q)) (predictKey innings)) pid2 = _
            rw [hnmp, rawPredsGet_setPrediction_same]
            exact predLookup_mapSet_other _ _ _ _ hpid2
          · intro k2 hk2
            rw [hsucc]
            show rawPredsGet (setPrediction
              (normalizeMatch now st m0).predictions (predictKey innings) playerId
                (jsRound q)) k2 = _
            rw [hnmp]
            exact rawPredsGet_setPrediction_other _ _ _ _ _ _ hk2

/-- Witness for C4 (amended): a valid submission of 100 to the open,
toss-resolved innings1 succeeds and stores the rounded value. -/
theorem predict_preconditions_witness :
    (predictHandler 0 stBase playersAB mToss 1 "A" (some 100)).error = none ∧
    predLookup (rawPredsGet (predictHandler 0 stBase playersAB mToss 1 "A"
        (some 100)).matchState.predictions (predictKey 1)) "A" =
      some (jsRound 100) := by
  have h := ((((predict_preconditions 0 stBase playersAB mToss 1 "A" (some 100)).2
    ⟨"X", "Y"⟩ (by decide)).2 ⟨"open", none, none⟩ (by decide) rfl).2
    (by decide)).2.2 100 rfl (by decide) (by decide)
  exact ⟨h.1, h.2.1⟩

theorem nIS_locked_innings (now : Int) (inn : Innings)
    (hlock : inn.status = "locked" ∨ inn.status = "scored" ∨
      (inn.status = "open" ∧ timeLocked now inn.lockTime = true)) :
    ∃ inn2, normalizeInningsStatus now (some inn) = some inn2 ∧
      inn2.status ≠ "open" := by
  rcases hlock with h | h | ⟨h, ht⟩
  · exact ⟨inn, normalizeInningsStatus_not_open (by rw [h]; decide),
      fun he => (by decide : ¬ ("locked" : String) = "open") (h.symm.trans he)⟩
  · exact ⟨inn, normalizeInningsStatus_not_open (by rw [h]; decide),
      fun he => (by decide : ¬ ("scored" : String) = "open") (h.symm.trans he)⟩
  · refine ⟨{ inn with status := "locked" }, ?_,
      fun he => (by decide : ¬ ("locked" : String) = "open") he⟩
    rw [normalizeInningsStatus_eq, if_pos ⟨h, ht⟩]

/-- C5 (counterexample to the claim as stated): submitting to a locked
innings of a match whose toss is not set fails with TossNotSet, not with the
InningsNotOpen/locked error — the toss precondition is checked first. -/
theorem predict_locked_noToss_cex :
    mNoTossLocked.innings1 = some ⟨"locked", none, none⟩ ∧
    (predictHandler 0 stBase playersAB mNoTossLocked 1 "A" (some 100)).error =
      some PredictErr.tossNotSet := by
  exact ⟨rfl, rfl⟩

/-- C5 (amended): provided the match's toss is set (otherwise the TossNotSet
precondition fires first), every prediction submission targeting an innings
that is locked or scored — including an innings whose status still reads
open but whose lock time is ≤ now — fails with the InningsNotOpen error and
the predictions mappings of the match are unchanged. -/
theorem predict_locked_rejected (now : Int) (st : Settings) (players : List Player)
    (m0 : RawMatch) (innings : Int) (playerId : String) (score : Option Rat)
    (p1 p2 : PredMap) (hp : m0.predictions = RawPreds.split (some p1) (some p2))
    (bt : BattingTeams) (hb : getBattingTeams (normalizeMatch now st m0) = some bt)
    (inn : Innings) (hinn : inningsOf m0 (predictKey innings) = some inn)
    (hlock : inn.status = "locked" ∨ inn.status = "scored" ∨
      (inn.status = "open" ∧ timeLocked now inn.lockTime = true)) :
    (predictHandler now st players m0 innings playerId score).error =
      some PredictErr.inningsNotOpen ∧
    (predictHandler now st players m0 innings playerId score).matchState.predictions =
      RawPreds.split (some p1) (some p2) := by
  have hnp : inn.status ≠ "pending" := by
    rcases hlock with h | h | ⟨h, _⟩ <;> rw [h] <;> decide
  obtain ⟨inn2, hn2, hn2s⟩ := nIS_locked_innings now inn hlock
  have hio : inningsOf (normalizeMatch now st m0) (predictKey innings) = some inn2 := by
    rw [inningsOf_normalizeMatch]
    cases hk : predictKey innings with
    | innings1 =>
      rw [hk] at hinn
      have he : effInnings1 m0 = inn := by
        rw [effInnings1, show m0.innings1 = some inn from hinn]
        rfl
      rw [he]
      exact hn2
    | innings2 =>
      rw [hk] at hinn
      have he : effInnings2 m0 = inn := by
        rw [effInnings2, show m0.innings2 = some inn from hinn]
        rfl
      rw [he, promoteInnings2_not_pending hnp]
      exact hn2
  have hout := predictHandler_not_open now st players m0 innings playerId score
    bt inn2 hb hio hn2s
  constructor
  · rw [hout]
  · rw [hout]
    show (normalizeMatch now st m0).predictions = _
    show normalizePreds m0.predictions = _
    rw [hp]
    rfl

/-- Witness for C5 (amended): with the toss set, submitting to the locked
innings1 is rejected with InningsNotOpen and the predictions are unchanged. -/
theorem predict_locked_rejected_witness :
    (predictHandler 0 stBase playersAB mTossLocked 1 "A" (some 100)).error =
      some PredictErr.inningsNotOpen ∧
    (predictHandler 0 stBase playersAB mTossLocked 1 "A"
        (some 100)).matchState.predictions =
      RawPreds.split (some []) (some []) :=
  predict_locked_rejected 0 stBase playersAB mTossLocked 1 "A" (some 100)
    [] [] rfl ⟨"X", "Y"⟩ (by decide) ⟨"locked", none, none⟩ rfl
    (Or.inl rfl)

/-! ### C2: the scoreboard accumulation -/

theorem statsGet_jsMapUpdate (l : List StatRow) (id : String)
    (f : StatRow → StatRow) (hf : ∀ r, (f r).playerId = r.playerId)
    (pid : String) :
    statsGet (jsMapUpdate l id f) pid =
      if pid = id then (statsGet l pid).map f else statsGet l pid := by
  simp only [jsMapUpdate, statsGet]
  induction l with
  | nil =>
    rw [List.map_nil]
    split <;> rfl
  | cons x t ih =>
    rw [List.map_cons]
    by_cases hx : x.playerId = id
    · rw [if_pos hx]
      by_cases hpx : x.playerId = pid
      · have h1 : pid = id := by rw [← hpx, hx]
        rw [if_pos h1]
        rw [List.find?_cons_of_pos _ (by simp [hf x, hpx]),
          List.find?_cons_of_pos _ (by simp [hpx])]
        rfl
      · have h2 : ¬ (f x).playerId = pid := by rw [hf x]; exact hpx
        rw [List.find?_cons_of_neg _ (by simp [h2]),
          List.find?_cons_of_neg _ (by simp [hpx])] at *
        exact ih
    · rw [if_neg hx]
      by_cases hpx : x.playerId = pid
      · rw [List.find?_cons_of_pos _ (by simp [hpx]),
          List.find?_cons_of_pos _ (by simp [hpx])]
        have hpi : ¬ pid = id := by rw [← hpx]; exact hx
        rw [if_neg hpi]
      · rw [List.find?_cons_of_neg _ (by simp [hpx]),
          List.find?_cons_of_neg _ (by simp [hpx])]
        exact ih

theorem statsGet_foldl (diffs : List (String × Int))
    (F : String × Int → StatRow → StatRow)
    (hF : ∀ e r, (F e r).playerId = r.playerId) (st0 : List StatRow)
    (pid : String) (hnd : (diffs.map Prod.fst).Nodup) :
    statsGet (diffs.foldl (fun st e => jsMapUpdate st e.1 (F e)) st0) pid =
      match diffs.find? (fun e => e.1 = pid) with
      | some e => (statsGet st0 pid).map (F e)
      | none => statsGet st0 pid := by
  revert hnd
  induction diffs generalizing st0 with
  | nil => intro hnd; rfl
  | cons e t ih =>
    intro hnd
    rw [List.map_cons, List.nodup_cons] at hnd
    obtain ⟨hhead, hnd'⟩ := hnd
    rw [List.foldl_cons]
    by_cases he : e.1 = pid
    · rw [List.find?_cons_of_pos _ (by simp [he])]
      have hnone : List.find? (fun x => x.1 = pid) t = none := by
        apply List.find?_eq_none.mpr
        intro x hx
        simp only [decide_eq_true_eq]
        intro hxp
        exact hhead (by rw [he, ← hxp]; exact List.mem_map_of_mem Prod.fst hx)
      rw [ih _ hnd', hnone, statsGet_jsMapUpdate _ _ _ (hF e), if_pos he.symm]
    · rw [List.find?_cons_of_neg _ (by simp [he])]
      have hskip : statsGet (jsMapUpdate st0 e.1 (F e)) pid = statsGet st0 pid := by
        rw [statsGet_jsMapUpdate _ _ _ (hF e), if_neg (fun hh => he hh.symm)]
      rw [ih _ hnd', hskip]

theorem nodup_filterMap_fst {players : List Player}
    (f : Player → Option (String × Int))
    (hf : ∀ p e, f p = some e → e.1 = p.id)
    (hnd : (players.map Player.id).Nodup) :
    ((players.filterMap f).map Prod.fst).Nodup := by
  induction players with
  | nil => exact List.nodup_nil
  | cons p t ih =>
    rw [List.map_cons, List.nodup_cons] at hnd
    obtain ⟨hni, hnd'⟩ := hnd
    rw [List.filterMap_cons]
    cases hfp : f p with
    | none => exact ih hnd'
    | some e =>
      rw [List.map_cons, List.nodup_cons]
      refine ⟨?_, ih hnd'⟩
      intro hmem
      rcases List.mem_map.mp hmem with ⟨e', he', hfst⟩
      rcases List.mem_filterMap.mp he' with ⟨p', hp', hfp'⟩
      apply hni
      rw [← hf p e hfp, ← hfst, hf p' e' hfp']
      exact List.mem_map_of_mem Player.id hp'

theorem find?_of_nodup_fst {l : List (String × Int)}
    (hnd : (l.map Prod.fst).Nodup) {pid : String} {d : Int}
    (he : (pid, d) ∈ l) : l.find? (fun x => x.1 = pid) = some (pid, d) := by
  induction l with
  | nil => cases he
  | cons a t ih =>
    rw [List.map_cons, List.nodup_cons] at hnd
    obtain ⟨hna, hnd'⟩ := hnd
    rcases List.mem_cons.mp he with heq | hme
    · rw [← heq]
      exact List.find?_cons_of_pos _ (by simp)
    · rw [List.find?_cons_of_neg _ ?_, ih hnd' hme]
      simp only [decide_eq_true_eq]
      intro hh
      apply hna
      rw [hh]
      exact List.mem_map_of_mem Prod.fst hme

/-- C2 (counterexample to the claim as stated): a scored innings whose
STORED result names a winner without a recorded prediction awards that
winner nothing — the code only iterates over players with predictions, so a
player in the winners set gains neither a win nor points. -/
theorem buildScoreboard_staleWinner_cex :
    (resultGet mStale.result InningsKey.innings1).map InningsResult.winners =
      some ["A"] ∧
    mStale.innings1 = some ⟨"scored", none, some 100⟩ ∧
    predLookup (rawPredsGet mStale.predictions InningsKey.innings1) "A" = none ∧
    ((buildScoreboard c2Data).find? (fun r => r.playerId = "A")).map Row.wins =
      some 0 ∧
    ((buildScoreboard c2Data).find? (fun r => r.playerId = "A")).map Row.points =
      some 0 := by
  refine ⟨rfl, rfl, rfl, ?_, ?_⟩ <;> decide

/-- C2 (amended): `buildScoreboard` folds `processInnings` over every match
and both innings; for a scored innings with a present score, every listed
player (ids assumed distinct) with a recorded prediction gains
`totalDiff += |prediction − score|`, `predictionCount += 1`, and
`exactHits += 1` on an exact hit; a predicting player in the innings'
winners set additionally gains `wins += 1` and `points += 1`, plus
`bonusExact` more points when the diff is 0 and `bonusExact > 0`.  A player
without a recorded prediction gains nothing, even when the (stored) winners
set names them; innings not scored or without a score contribute nothing. -/
theorem processInnings_accumulation (players : List Player) (bonus : Int)
    (stats : List StatRow) (m : RawMatch) (k : InningsKey)
    (hnd : (players.map Player.id).Nodup) :
    (∀ d : RoomData, buildScoreboard d = List.insertionSort rowLE
      ((d.matchList.foldl (fun st mm =>
        processInnings d.players d.settings.bonusExact
          (processInnings d.players d.settings.bonusExact st mm
            InningsKey.innings1) mm InningsKey.innings2)
        (statsInit d.players)).map finalizeRow)) ∧
    (inningsOf m k = none → processInnings players bonus stats m k = stats) ∧
    (∀ inn, inningsOf m k = some inn → inn.status ≠ "scored" →
      processInnings players bonus stats m k = stats) ∧
    (∀ inn, inningsOf m k = some inn → inn.score = none →
      processInnings players bonus stats m k = stats) ∧
    (∀ inn, inningsOf m k = some inn → inn.status = "scored" →
      ∀ s, inn.score = some s → ∀ p ∈ players,
      (predLookup (rawPredsGet m.predictions k) p.id = none →
        statsGet (processInnings players bonus stats m k) p.id =
          statsGet stats p.id) ∧
      (∀ v, predLookup (rawPredsGet m.predictions k) p.id = some v →
        statsGet (processInnings players bonus stats m k) p.id =
          (statsGet stats p.id).map (fun row =>
            { row with
              totalDiff := row.totalDiff + |v - s|
              predictions := row.predictions + 1
              scoredMatches := row.scoredMatches + 1
              exactHits := row.exactHits + (if |v - s| = 0 then 1 else 0)
              wins := row.wins +
                (if (inningsWinners players m k s).contains p.id then 1 else 0)
              points := row.points +
                (if (inningsWinners players m k s).contains p.id then
                  1 + (if |v - s| = 0 ∧ bonus > 0 then bonus else 0)
                else 0) }))) := by
  refine ⟨fun d => rfl, ?_, ?_, ?_, ?_⟩
  · intro h
    simp only [processInnings, h]
  · intro inn hio hst
    simp only [processInnings, hio]
    rw [if_pos hst]
  · intro inn hio hsc
    simp only [processInnings, hio, hsc]
    split <;> rfl
  · intro inn hio hst s hsc p hp
    have hF1 : ∀ (e : String × Int) (r : StatRow),
        (statUpdate e r).playerId = r.playerId := fun e r => rfl
    have hF2 : ∀ (e : String × Int) (r : StatRow),
        (awardUpdate bonus (inningsWinners players m k s) e r).playerId =
          r.playerId := by
      intro e r
      unfold awardUpdate
      by_cases hw : (inningsWinners players m k s).contains e.1
      · rw [if_pos hw]
        dsimp only
        by_cases hb : e.2 = 0 ∧ bonus > 0
        · rw [if_pos hb]
        · rw [if_neg hb]
      · rw [if_neg hw]
    have hpi : processInnings players bonus stats m k =
        (diffEntries s (rawPredsGet m.predictions k) players).foldl
          (fun st e => jsMapUpdate st e.1
            (awardUpdate bonus (inningsWinners players m k s) e))
          ((diffEntries s (rawPredsGet m.predictions k) players).foldl
            (fun st e => jsMapUpdate st e.1 (statUpdate e)) stats) := by
      simp only [processInnings, hio, hsc]
      rw [if_neg (not_not_intro hst)]
    have hdnd : ((diffEntries s (rawPredsGet m.predictions k) players).map
        Prod.fst).Nodup := by
      simp only [diffEntries]
      apply nodup_filterMap_fst _ _ hnd
      intro q e hfe
      cases hq : predLookup (rawPredsGet m.predictions k) q.id with
      | none => rw [hq] at hfe; cases hfe
      | some v =>
        rw [hq] at hfe
        injection hfe with hfe
        rw [← hfe]
    constructor
    · intro hnone
      have hfind : (diffEntries s (rawPredsGet m.predictions k) players).find?
          (fun e => e.1 = p.id) = none := by
        apply List.find?_eq_none.mpr
        intro x hx
        simp only [decide_eq_true_eq]
        intro hxp
        rcases mem_diffEntries.mp hx with ⟨q, hq, v, hv, hxe⟩
        rw [hxe] at hxp
        simp only at hxp
        rw [hxp] at hv
        rw [hv] at hnone
        cases hnone
      rw [hpi, statsGet_foldl _ _ hF2 _ _ hdnd, hfind,
        statsGet_foldl _ _ hF1 _ _ hdnd, hfind]
    · intro v hv
      have hmem : ((p.id, |v - s|) : String × Int) ∈
          diffEntries s (rawPredsGet m.predictions k) players :=
        mem_diffEntries.mpr ⟨p, hp, v, hv, rfl⟩
      have hfind := find?_of_nodup_fst hdnd hmem
      rw [hpi, statsGet_foldl _ _ hF2 _ _ hdnd, hfind,
        statsGet_foldl _ _ hF1 _ _ hdnd, hfind]
      cases hrow : statsGet stats p.id with
      | none => rfl
      | some row =>
        simp only [Option.map_some']
        congr 1
        unfold awardUpdate statUpdate
        by_cases hw : (inningsWinners players m k s).contains p.id
        · have hwmem : p.id ∈ inningsWinners players m k s := by simpa using hw
          rw [if_pos hw]
          dsimp only
          by_cases hd : |v - s| = 0
          · by_cases hb : bonus > 0
            · rw [if_pos ⟨hd, hb⟩]
              simp [hd, hwmem, hb, add_assoc]
            · rw [if_neg (fun hx => hb hx.2)]
              simp [hd, hwmem, hb]
          · rw [if_neg (fun hx => hd hx.1)]
            simp [hd, hwmem]
        · have hwnot : p.id ∉ inningsWinners players m k s := by simpa using hw
          rw [if_neg hw]
          simp [hwnot]
          split <;> simp


/-- Witness for C2 (amended), at the bonus-2 room: Alice predicted 100 on an
innings scored at 100, so her row gains diff 0, one prediction, one exact
hit, one win, and 1 + 2 points. -/
theorem processInnings_accumulation_witness :
    statsGet (processInnings c3Data.players c3Data.settings.bonusExact
        (statsInit c3Data.players) c3Match InningsKey.innings1) "A" =
      (statsGet (statsInit c3Data.players) "A").map (fun row =>
        { row with
          totalDiff := row.totalDiff + |(100 : Int) - 100|
          predictions := row.predictions + 1
          scoredMatches := row.scoredMatches + 1
          exactHits := row.exactHits + (if |(100 : Int) - 100| = 0 then 1 else 0)
          wins := row.wins + (if (inningsWinners c3Data.players c3Match
            InningsKey.innings1 100).contains "A" then 1 else 0)
          points := row.points + (if (inningsWinners c3Data.players c3Match
              InningsKey.innings1 100).contains "A" then
              1 + (if |(100 : Int) - 100| = 0 ∧ c3Data.settings.bonusExact > 0 then
                c3Data.settings.bonusExact else 0)
            else 0) }) :=
  ((processInnings_accumulation c3Data.players c3Data.settings.bonusExact
    (statsInit c3Data.players) c3Match InningsKey.innings1
    (by decide)).2.2.2.2 ⟨"scored", none, some 100⟩ rfl (by decide) 100 rfl
    ⟨"A", "Alice"⟩ (by decide)).2 100 rfl

/-! ### C3 and C10: the scoreboard ordering -/

theorem rowLE_iff (a b : Row) :
    rowLE a b ↔ (b.points < a.points ∨ (b.points = a.points ∧
      (avgVal a < avgVal b ∨ (avgVal a = avgVal b ∧
        a.name.data ≤ b.name.data)))) := by
  constructor
  · intro h
    unfold rowLE rowCmp jsOrQ strCmp at h
    by_cases hp : b.points = a.points
    · have hx0 : ((b.points - a.points : Int) : Rat) = 0 := by
        rw [hp, sub_self, Int.cast_zero]
      rw [if_pos hx0] at h
      refine Or.inr ⟨hp, ?_⟩
      by_cases hv : avgVal a = avgVal b
      · rw [hv, sub_self, if_pos rfl] at h
        refine Or.inr ⟨hv, ?_⟩
        by_cases hlt : a.name.data < b.name.data
        · exact le_of_lt hlt
        · rw [if_neg hlt] at h
          by_cases hgt : b.name.data < a.name.data
          · rw [if_pos hgt] at h
            norm_num at h
          · exact le_of_not_lt hgt
      · rw [if_neg (sub_ne_zero_of_ne hv)] at h
        exact Or.inl (sub_neg.mp (lt_of_le_of_ne h (sub_ne_zero_of_ne hv)))
    · have hne : ((b.points - a.points : Int) : Rat) ≠ 0 := by
        exact_mod_cast sub_ne_zero_of_ne hp
      rw [if_neg hne] at h
      have hle : (b.points : Int) - a.points ≤ 0 := by exact_mod_cast h
      exact Or.inl (lt_of_le_of_ne (sub_nonpos.mp hle) hp)
  · intro h
    unfold rowLE rowCmp jsOrQ strCmp
    rcases h with h | ⟨hp, h⟩
    · have hx : ((b.points - a.points : Int) : Rat) < 0 := by
        exact_mod_cast sub_neg.mpr h
      rw [if_neg (ne_of_lt hx)]
      exact le_of_lt hx
    · have hx0 : ((b.points - a.points : Int) : Rat) = 0 := by
        rw [hp, sub_self, Int.cast_zero]
      rw [if_pos hx0]
      rcases h with h | ⟨hv, hn⟩
      · have hy : avgVal a - avgVal b < 0 := sub_neg.mpr h
        rw [if_neg (ne_of_lt hy)]
        exact le_of_lt hy
      · rw [hv, sub_self, if_pos rfl]
        rcases lt_or_eq_of_le hn with hlt | heq
        · rw [if_pos hlt]
          norm_num
        · rw [if_neg (by rw [heq]; exact lt_irrefl _),
            if_neg (by rw [heq]; exact lt_irrefl _)]

theorem rowLE_total (a b : Row) : rowLE a b ∨ rowLE b a := by
  rw [rowLE_iff, rowLE_iff]
  rcases lt_trichotomy b.points a.points with h | h | h
  · exact Or.inl (Or.inl h)
  · rcases lt_trichotomy (avgVal a) (avgVal b) with h2 | h2 | h2
    · exact Or.inl (Or.inr ⟨h, Or.inl h2⟩)
    · rcases le_total a.name.data b.name.data with h3 | h3
      · exact Or.inl (Or.inr ⟨h, Or.inr ⟨h2, h3⟩⟩)
      · exact Or.inr (Or.inr ⟨h.symm, Or.inr ⟨h2.symm, h3⟩⟩)
    · exact Or.inr (Or.inr ⟨h.symm, Or.inl h2⟩)
  · exact Or.inr (Or.inl h)

theorem rowLE_trans (a b c : Row) (hab : rowLE a b) (hbc : rowLE b c) :
    rowLE a c := by
  rw [rowLE_iff] at hab hbc ⊢
  rcases hab with h1 | ⟨h1, q1⟩
  · rcases hbc with h2 | ⟨h2, _⟩
    · exact Or.inl (lt_trans h2 h1)
    · exact Or.inl (by rw [h2]; exact h1)
  · rcases hbc with h2 | ⟨h2, q2⟩
    · exact Or.inl (by rw [← h1]; exact h2)
    · refine Or.inr ⟨h2.trans h1, ?_⟩
      rcases q1 with hv1 | ⟨hv1, hn1⟩
      · rcases q2 with hv2 | ⟨hv2, _⟩
        · exact Or.inl (lt_trans hv1 hv2)
        · exact Or.inl (by rw [← hv2]; exact hv1)
      · rcases q2 with hv2 | ⟨hv2, hn2⟩
        · exact Or.inl (by rw [hv1]; exact hv2)
        · exact Or.inr ⟨hv1.trans hv2, le_trans hn1 hn2⟩

theorem sorted_buildScoreboard (d : RoomData) :
    List.Sorted rowLE (buildScoreboard d) := by
  haveI : IsTotal Row rowLE := ⟨rowLE_total⟩
  haveI : IsTrans Row rowLE := ⟨fun a b c => rowLE_trans a b c⟩
  exact List.sorted_insertionSort rowLE _

/-- C3: the sequence returned by `buildScoreboard` is sorted by points
descending, then average diff ascending, then player name ascending: for
every two positions `i < j` of the output, the later row's points do not
exceed the earlier's; with equal points and both average diffs present, the
earlier row's average diff is no larger; and with equal points and equal
average diffs, the names are in alphabetical order. -/
theorem buildScoreboard_ordering (d : RoomData)
    (i j : Fin (buildScoreboard d).length) (hij : i < j) :
    ((buildScoreboard d).get j).points ≤ ((buildScoreboard d).get i).points ∧
    (((buildScoreboard d).get i).points = ((buildScoreboard d).get j).points →
      ∀ x y : Rat, ((buildScoreboard d).get i).avgDiff = some x →
        ((buildScoreboard d).get j).avgDiff = some y → x ≤ y) ∧
    (((buildScoreboard d).get i).points = ((buildScoreboard d).get j).points →
      ((buildScoreboard d).get i).avgDiff = ((buildScoreboard d).get j).avgDiff →
      ((buildScoreboard d).get i).name ≤ ((buildScoreboard d).get j).name) := by
  have hrel := (sorted_buildScoreboard d).rel_get_of_lt hij
  rw [rowLE_iff] at hrel
  refine ⟨?_, ?_, ?_⟩
  · rcases hrel with h | ⟨h, _⟩
    · exact le_of_lt h
    · exact le_of_eq h
  · intro hpe x y hx hy
    rcases hrel with h | ⟨_, h2⟩
    · exact absurd hpe (ne_of_gt h)
    · rcases h2 with h | ⟨heq, _⟩
      · have hxy : x < y := by
          rw [avgVal, avgVal, hx, hy] at h
          exact h
        exact le_of_lt hxy
      · have hxy : x = y := by
          rw [avgVal, avgVal, hx, hy] at heq
          exact heq
        exact le_of_eq hxy
  · intro hpe hae
    rcases hrel with h | ⟨_, h2⟩
    · exact absurd hpe (ne_of_gt h)
    · rcases h2 with h | ⟨_, hn⟩
      · rw [avgVal, avgVal, hae] at h
        exact absurd h (lt_irrefl _)
      · exact String.le_iff_toList_le.mpr hn

/-- Witness for C3 at a shared win: both players hold 1 point with average
diff 5, and the output falls through to alphabetical name order. -/
theorem buildScoreboard_ordering_witness :
    ((buildScoreboard c3TieData).get ⟨1, by decide⟩).points ≤
      ((buildScoreboard c3TieData).get ⟨0, by decide⟩).points ∧
    ((buildScoreboard c3TieData).get ⟨0, by decide⟩).name ≤
      ((buildScoreboard c3TieData).get ⟨1, by decide⟩).name := by
  have h := buildScoreboard_ordering c3TieData ⟨0, by decide⟩ ⟨1, by decide⟩
    (by decide)
  exact ⟨h.1, h.2.2 (by decide) (by decide)⟩

/-- C10: in `buildScoreboard`'s sort comparator a row whose `avgDiff` is
null is compared as if its average were 0 (JS coerces `null` to `0` in the
subtraction), so among rows with equal points a player with no predictions
never ranks behind a player with a positive average diff, ties with rows
whose average is exactly 0, and such ties fall through to alphabetical name
order. -/
theorem scoreboard_nullAvg (d : RoomData)
    (i j : Fin (buildScoreboard d).length) (hij : i < j) :
    (∀ a b : Row, a.avgDiff = none →
      rowCmp a b = rowCmp { a with avgDiff := some 0 } b ∧
      rowCmp b a = rowCmp b { a with avgDiff := some 0 }) ∧
    (((buildScoreboard d).get i).points = ((buildScoreboard d).get j).points →
      ((buildScoreboard d).get j).avgDiff = none →
      ∀ y : Rat, ((buildScoreboard d).get i).avgDiff = some y → y ≤ 0) ∧
    (((buildScoreboard d).get i).points = ((buildScoreboard d).get j).points →
      ((buildScoreboard d).get i).avgDiff = none →
      ((buildScoreboard d).get j).avgDiff = some 0 →
      ((buildScoreboard d).get i).name ≤ ((buildScoreboard d).get j).name) ∧
    (((buildScoreboard d).get i).points = ((buildScoreboard d).get j).points →
      ((buildScoreboard d).get i).avgDiff = some 0 →
      ((buildScoreboard d).get j).avgDiff = none →
      ((buildScoreboard d).get i).name ≤ ((buildScoreboard d).get j).name) := by
  have hrel := (sorted_buildScoreboard d).rel_get_of_lt hij
  rw [rowLE_iff] at hrel
  refine ⟨?_, ?_, ?_, ?_⟩
  · intro a b ha
    constructor <;> simp [rowCmp, avgVal, ha]
  · intro hpe hjn y hiy
    rcases hrel with h | ⟨_, h2⟩
    · exact absurd hpe (ne_of_gt h)
    · rcases h2 with h | ⟨heq, _⟩
      · rw [avgVal, avgVal, hiy, hjn] at h
        exact le_of_lt h
      · rw [avgVal, avgVal, hiy, hjn] at heq
        exact le_of_eq heq
  · intro hpe hin hj0
    rcases hrel with h | ⟨_, h2⟩
    · exact absurd hpe (ne_of_gt h)
    · rcases h2 with h | ⟨_, hn⟩
      · rw [avgVal, avgVal, hin, hj0] at h
        exact absurd h (lt_irrefl _)
      · exact String.le_iff_toList_le.mpr hn
  · intro hpe hi0 hjn
    rcases hrel with h | ⟨_, h2⟩
    · exact absurd hpe (ne_of_gt h)
    · rcases h2 with h | ⟨_, hn⟩
      · rw [avgVal, avgVal, hi0, hjn] at h
        exact absurd h (lt_irrefl _)
      · exact String.le_iff_toList_le.mpr hn

/-- Witness for C10: Alice (no predictions, null average) ties Bob (average
exactly 0 but no points from a stale empty winner list) on points and
average, and ranks first by name. -/
theorem scoreboard_nullAvg_witness :
    ((buildScoreboard c10Data).get ⟨0, by decide⟩).name ≤
      ((buildScoreboard c10Data).get ⟨1, by decide⟩).name :=
  (scoreboard_nullAvg c10Data ⟨0, by decide⟩ ⟨1, by decide⟩ (by decide)).2.2.1
    (by decide) (by decide) (by decide)

end T20
